import Mathlib

/-!
# GodMode9 virtual memory drive (`source/virtual/vmem.c`) and serial number
(`source/sysinfo.c`)

A shallow embedding of the virtual-file catalog, the directory iterator and the
read/write dispatcher of `vmem.c`, with the two callback handlers, and of
`GetSysInfo_SecureInfo` of `sysinfo.c`.

Conventions of the embedding:

* `u64`, `u32` and `u8` values are natural numbers; every place where the C code
  wraps or truncates carries an explicit `% 2 ^ w`.
* Physical memory is a map from addresses to bytes, a caller buffer is a map from
  positions to bytes.  Byte contents are never computed on by this code, so they
  are plain naturals.
* The cursor index is a C `int`: an integer, whose increment goes through `wrapInt`
  (`INT_MAX + 1` is `INT_MIN`, as on the target).
* Undefined behaviour in C (an array index outside the array) is `none`.
* Facts and primitives that live outside `vmem.c` (console model, `sizeof(Otp)`,
  I2C device ids, `sha_cmp`, `i2cReadRegister`, `cbc_decrypt`) are fields of
  `Platform`.
-/

namespace VMem

/-! ## Constants of `vmem.c` -/

def VFLAG_READ_ONLY : Nat := 1 <<< 26
def VFLAG_CALLBACK : Nat := 1 <<< 27
def VFLAG_BOOT9 : Nat := 1 <<< 28
def VFLAG_BOOT11 : Nat := 1 <<< 29
def VFLAG_OTP : Nat := 1 <<< 30
def VFLAG_N3DS_ONLY : Nat := 1 <<< 31

def BOOT9_POS : Nat := 0x08080000
def BOOT11_POS : Nat := 0x08090000
def BOOT9_LEN : Nat := 0x00010000
def BOOT11_LEN : Nat := 0x00010000

def boot9_sha256 : List Nat :=
  [0x2F, 0x88, 0x74, 0x4F, 0xEE, 0xD7, 0x17, 0x85, 0x63, 0x86, 0x40, 0x0A, 0x44, 0xBB, 0xA4, 0xB9,
   0xCA, 0x62, 0xE7, 0x6A, 0x32, 0xC7, 0x15, 0xD4, 0xF3, 0x09, 0xC3, 0x99, 0xBF, 0x28, 0x16, 0x6F]

def boot11_sha256 : List Nat :=
  [0x74, 0xDA, 0xAC, 0xE1, 0xF8, 0x06, 0x7B, 0x66, 0xCC, 0x81, 0xFC, 0x30, 0x7A, 0x3F, 0xDB, 0x50,
   0x9C, 0xBE, 0xDC, 0x32, 0xF9, 0x03, 0xAE, 0xBE, 0x90, 0x61, 0x44, 0xDE, 0xA7, 0xA0, 0x75, 0x12]

def OTP_POS : Nat := 0x10012000

/-- The enum `VMemCallbackType`. -/
def VMEM_CALLBACK_OTP_DECRYPTED : Nat := 0
def VMEM_CALLBACK_MCU_REGISTERS : Nat := 1
def VMEM_NUM_CALLBACKS : Nat := 2

/-! ## Data model -/

/-- Modelled from the spec: the record type `VirtualFile`, declared outside `vmem.c`.
The five fields are the ones the catalog initialises, in order: name, offset (the
spec's location: a physical address, or a handler id when `VFLAG_CALLBACK` is set),
size, keyslot (the spec's auxiliary id) and flags. -/
structure VirtualFile where
  name : String
  offset : Nat
  size : Nat
  keyslot : Nat
  flags : Nat
deriving DecidableEq, Repr

/-- Modelled from the spec: the cursor type `VirtualDir`, declared outside `vmem.c`,
which only touches its `index`.  The spec makes the cursor a single integer index;
`vmem.c` compares it with the `int n_templates` and increments it as a C `int`, so its
values are the integers from `INT_MIN` to `INT_MAX`. -/
structure VirtualDir where
  index : Int
deriving DecidableEq, Repr

/-- The largest and the smallest value of a 32-bit C `int`. -/
def INT_MAX : Int := 2147483647
def INT_MIN : Int := -2147483648

/-- The value a 32-bit `int` takes for a mathematical result: itself inside
`INT_MIN .. INT_MAX`, wrapped around (two's complement) outside.  The C standard leaves
the overflow of `++` on an `int` undefined; on this target `INT_MAX + 1` is
`INT_MIN`. -/
def wrapInt (i : Int) : Int := (i + 2147483648) % 4294967296 - 2147483648

/-- Physical memory: address to byte. -/
abbrev Mem := Nat → Nat

/-- A caller buffer: position to byte. -/
abbrev Buffer := Nat → Nat

/-- What the handlers do to the hardware, in program order. -/
inductive Event where
  | callback (id : Nat) (writing : Bool)
  | i2cRead (device : Nat) (register : Nat)
  | setupAesKey (keyslot : Nat) (key : List Nat)
  | useAesKey (keyslot : Nat)
  | cbcDecrypt (key : List Nat) (input : List Nat) (blocks : Nat) (mode : Nat) (iv : List Nat)
deriving DecidableEq, Repr

/-- Modelled from the spec: the state of the block cipher "keyed by a slot id", which
lives outside `vmem.c`: the normal key loaded in each keyslot, and the key selected
for the next operation. -/
structure AesEngine where
  keyslots : Nat → List Nat
  selected : List Nat

/-- Everything outside the arguments that `vmem.c` reads or changes. -/
structure World where
  mem : Mem
  aes : AesEngine
  trace : List Event

/-- The facts and primitives `vmem.c` takes from other files: the macros `IS_O3DS`,
`IS_UNLOCKED`, `IS_DEVKIT`, the size of the type `Otp`, the I2C device ids, the
mode constants, and the primitives `sha_cmp` (0 when the digest of the region
matches), `i2cReadRegister` and `cbc_decrypt` (key selected in the engine, input
bytes, number of 16-byte blocks, mode, IV; gives the output bytes). -/
structure Platform where
  IS_O3DS : Bool
  IS_UNLOCKED : Bool
  IS_DEVKIT : Bool
  sizeof_Otp : Nat
  I2C_DEV_MCU : Nat
  I2C_DEV_MCU_TWL : Nat
  SHA256_MODE : Nat
  AES_CNT_TITLEKEY_DECRYPT_MODE : Nat
  sha_cmp : List Nat → Nat → Nat → Nat → Int
  i2cReadRegister : Nat → Nat → Nat
  cbc_decrypt : List Nat → List Nat → Nat → Nat → List Nat → List Nat

/-- The result of a read or write: return code, the caller buffer and the world
afterwards. -/
structure Outcome where
  ret : Int
  buffer : Buffer
  world : World

/-! ## The catalog -/

def vMemFileTemplates (p : Platform) : List VirtualFile :=
  [ ⟨"itcm.mem", 0x01FF8000, 0x00008000, 0xFF, 0⟩,
    ⟨"arm9.mem", 0x08000000, 0x00100000, 0xFF, 0⟩,
    ⟨"arm9ext.mem", 0x08100000, 0x00080000, 0xFF, VFLAG_N3DS_ONLY⟩,
    ⟨"boot9.bin", BOOT9_POS, BOOT9_LEN, 0xFF, VFLAG_READ_ONLY ||| VFLAG_BOOT9⟩,
    ⟨"boot11.bin", BOOT11_POS, BOOT11_LEN, 0xFF, VFLAG_READ_ONLY ||| VFLAG_BOOT11⟩,
    ⟨"vram.mem", 0x18000000, 0x00600000, 0xFF, 0⟩,
    ⟨"dsp.mem", 0x1FF00000, 0x00080000, 0xFF, 0⟩,
    ⟨"axiwram.mem", 0x1FF80000, 0x00080000, 0xFF, 0⟩,
    ⟨"fcram.mem", 0x20000000, 0x08000000, 0xFF, 0⟩,
    ⟨"fcramext.mem", 0x28000000, 0x08000000, 0xFF, VFLAG_N3DS_ONLY⟩,
    ⟨"dtcm.mem", 0x30008000, 0x00004000, 0xFF, 0⟩,
    ⟨"otp.mem", OTP_POS, p.sizeof_Otp, 0xFF, VFLAG_READ_ONLY ||| VFLAG_OTP⟩,
    ⟨"otp_dec.mem", VMEM_CALLBACK_OTP_DECRYPTED, 0x00000100, 0x11,
      VFLAG_CALLBACK ||| VFLAG_READ_ONLY ||| VFLAG_OTP ||| VFLAG_BOOT9⟩,
    ⟨"mcu_3ds_regs.bin", VMEM_CALLBACK_MCU_REGISTERS, 0x00000100, p.I2C_DEV_MCU,
      VFLAG_CALLBACK ||| VFLAG_READ_ONLY⟩,
    ⟨"mcu_dsi_regs.bin", VMEM_CALLBACK_MCU_REGISTERS, 0x00000100, p.I2C_DEV_MCU_TWL,
      VFLAG_CALLBACK ||| VFLAG_READ_ONLY⟩ ]

/-! ## Directory iterator -/

def IsBoot9Available (p : Platform) : Bool :=
  p.sha_cmp boot9_sha256 BOOT9_POS BOOT9_LEN p.SHA256_MODE == 0

def IsBoot11Available (p : Platform) : Bool :=
  p.sha_cmp boot11_sha256 BOOT11_POS BOOT11_LEN p.SHA256_MODE == 0

/-- The condition of the `if` in `ReadVMemDir` that makes the loop `continue`. -/
def specialFlagsHide (p : Platform) (flags : Nat) : Bool :=
  ((flags &&& VFLAG_N3DS_ONLY != 0) && p.IS_O3DS) ||
  ((flags &&& VFLAG_OTP != 0) && !p.IS_UNLOCKED) ||
  ((flags &&& VFLAG_BOOT9 != 0) && !IsBoot9Available p) ||
  ((flags &&& VFLAG_BOOT11 != 0) && !IsBoot11Available p)

/-- The Availability Filter in the words of the specification: an entry is hidden
when it requires the new model and the console is an old model, or requires the
secure unlock and the console is locked, or depends on the boot9 (boot11) image and
that image is not present. -/
def isAvailable (p : Platform) (d : VirtualFile) : Bool :=
  decide (¬ ((d.flags &&& VFLAG_N3DS_ONLY ≠ 0 ∧ p.IS_O3DS = true) ∨
    (d.flags &&& VFLAG_OTP ≠ 0 ∧ p.IS_UNLOCKED = false) ∨
    (d.flags &&& VFLAG_BOOT9 ≠ 0 ∧ IsBoot9Available p = false) ∨
    (d.flags &&& VFLAG_BOOT11 ≠ 0 ∧ IsBoot11Available p = false)))

/-- The `while` loop of `ReadVMemDir`, one iteration per unit of fuel.  The state is
the output record and the cursor index; the result is the return value with the
final state.  `none` is an access outside the table, or no fuel left.  The increment
`++vdir->index` is the increment of a C `int`. -/
def readVMemDirLoop (p : Platform) (templates : List VirtualFile) :
    Nat → VirtualFile → Int → Option (Bool × VirtualFile × VirtualDir)
  | 0, _, _ => none
  | fuel + 1, vfile, index =>
    let index := wrapInt (index + 1)
    if index < (templates.length : Int) then
      if index < 0 then none
      else
        match templates[index.toNat]? with
        | none => none
        | some t =>
          let vfile := t
          if specialFlagsHide p vfile.flags then
            readVMemDirLoop p templates fuel vfile index
          else
            some (true, vfile, ⟨index⟩)
    else
      some (false, vfile, ⟨index⟩)

/-- The function `ReadVMemDir` over an arbitrary table. -/
def readVMemDirOver (p : Platform) (templates : List VirtualFile)
    (vfile : VirtualFile) (vdir : VirtualDir) : Option (Bool × VirtualFile × VirtualDir) :=
  readVMemDirLoop p templates (((templates.length : Int) - vdir.index).toNat + 1) vfile vdir.index

def ReadVMemDir (p : Platform) (vfile : VirtualFile) (vdir : VirtualDir) :
    Option (Bool × VirtualFile × VirtualDir) :=
  readVMemDirOver p (vMemFileTemplates p) vfile vdir

/-! ## Memory primitives -/

/-- The `n` bytes of memory from address `a` on. -/
def readBytes (m : Mem) (a n : Nat) : List Nat :=
  (List.range n).map (fun i => m (a + i))

/-- The length argument of `memcpy` is a `size_t`, 32 bits wide on this target (the
code makes pointers out of `u32` values). -/
def size_t (n : Nat) : Nat := n % 2 ^ 32

/-- A `memcpy` from physical memory into a caller buffer. -/
def memcpyFromMem (buffer : Buffer) (m : Mem) (src : Nat) (n : Nat) : Buffer :=
  fun i => if i < size_t n then m (src + i) else buffer i

/-- A `memcpy` from a caller buffer into physical memory. -/
def memcpyToMem (m : Mem) (dst : Nat) (buffer : Buffer) (n : Nat) : Mem :=
  fun a => if dst ≤ a ∧ a < dst + size_t n then buffer (a - dst) else m a

/-- A `memcpy` from a local byte array, starting at position `start`, into a caller
buffer. -/
def memcpyFromLocal (buffer : Buffer) (src : List Nat) (start : Nat) (n : Nat) : Buffer :=
  fun i => if i < size_t n then src.getD (start + i) 0 else buffer i

/-! ## Callback handlers -/

/-- The macro `OTP_KEY`. -/
def OTP_KEY (p : Platform) : Nat := BOOT9_POS + (if p.IS_DEVKIT then 0xD700 else 0xD6E0)

/-- The macro `OTP_IV`. -/
def OTP_IV (p : Platform) : Nat := OTP_KEY p + 0x10

/-- Modelled from the spec: the primitive `setup_aeskey`, defined outside `vmem.c`:
load a 16-byte normal key into a keyslot. -/
def setup_aeskey (w : World) (keyslot : Nat) (key : List Nat) : World :=
  { mem := w.mem
    aes := ⟨fun k => if k = keyslot then key else w.aes.keyslots k, w.aes.selected⟩
    trace := w.trace ++ [Event.setupAesKey keyslot key] }

/-- Modelled from the spec: the primitive `use_aeskey`, defined outside `vmem.c`:
select the key of a keyslot for the operations that follow. -/
def use_aeskey (w : World) (keyslot : Nat) : World :=
  { mem := w.mem
    aes := ⟨w.aes.keyslots, w.aes.keyslots keyslot⟩
    trace := w.trace ++ [Event.useAesKey keyslot] }

def ReadWriteVMemOTPDecrypted (p : Platform) (w : World) (_vfile : VirtualFile)
    (writing : Bool) (buffer : Buffer) (offset count : Nat) : Outcome :=
  if writing then ⟨1, buffer, w⟩
  else if (offset + count) % 2 ^ 64 < offset then ⟨1, buffer, w⟩
  else if (offset + count) % 2 ^ 64 > p.sizeof_Otp then ⟨1, buffer, w⟩
  else
    let otp_iv := readBytes w.mem (OTP_IV p) 0x10
    let w := setup_aeskey w 0x11 (readBytes w.mem (OTP_KEY p) 0x10)
    let w := use_aeskey w 0x11
    let blocks := p.sizeof_Otp / 0x10
    let input := readBytes w.mem OTP_POS (blocks * 0x10)
    let otp_local :=
      p.cbc_decrypt w.aes.selected input blocks p.AES_CNT_TITLEKEY_DECRYPT_MODE otp_iv
    let w := { w with trace := w.trace ++
      [Event.cbcDecrypt w.aes.selected input blocks p.AES_CNT_TITLEKEY_DECRYPT_MODE otp_iv] }
    ⟨0, memcpyFromLocal buffer otp_local offset count, w⟩

/-- The `for` loop of `ReadWriteVMemMCURegisters`: `remaining` is `count - x`. -/
def mcuReadLoop (p : Platform) (device offset : Nat) :
    Nat → Nat → Buffer → List Event → Buffer × List Event
  | 0, _, dest, trace => (dest, trace)
  | remaining + 1, x, dest, trace =>
    let reg := (offset + x) % 2 ^ 64 % 2 ^ 8
    let dest : Buffer := fun i => if i = x then p.i2cReadRegister device reg else dest i
    mcuReadLoop p device offset remaining (x + 1) dest (trace ++ [Event.i2cRead device reg])

def ReadWriteVMemMCURegisters (p : Platform) (w : World) (vfile : VirtualFile)
    (writing : Bool) (buffer : Buffer) (offset count : Nat) : Outcome :=
  if writing then ⟨1, buffer, w⟩
  else if (offset + count) % 2 ^ 64 < offset then ⟨1, buffer, w⟩
  else if (offset + count) % 2 ^ 64 > vfile.size then ⟨1, buffer, w⟩
  else
    let device := vfile.keyslot % 2 ^ 8
    let r := mcuReadLoop p device offset count 0 buffer w.trace
    ⟨0, r.1, { w with trace := r.2 }⟩

/-- The table `vMemCallbacks`. -/
def vMemCallbacks :
    List (Platform → World → VirtualFile → Bool → Buffer → Nat → Nat → Outcome) :=
  [ReadWriteVMemOTPDecrypted, ReadWriteVMemMCURegisters]

/-! ## Read/write dispatcher -/

/-- The function `ReadVMemFile`.  `none` is an index outside `vMemCallbacks`. -/
def ReadVMemFile (p : Platform) (w : World) (vfile : VirtualFile) (buffer : Buffer)
    (offset count : Nat) : Option Outcome :=
  if vfile.flags &&& VFLAG_CALLBACK != 0 then
    match vMemCallbacks[vfile.offset]? with
    | none => none
    | some handler =>
      some (handler p { w with trace := w.trace ++ [Event.callback vfile.offset false] }
        vfile false buffer offset count)
  else
    let foffset := (vfile.offset + offset) % 2 ^ 32
    some ⟨0, memcpyFromMem buffer w.mem foffset count, w⟩

/-- The function `WriteVMemFile`.  `none` is an index outside `vMemCallbacks`. -/
def WriteVMemFile (p : Platform) (w : World) (vfile : VirtualFile) (buffer : Buffer)
    (offset count : Nat) : Option Outcome :=
  if vfile.flags &&& VFLAG_READ_ONLY != 0 then
    some ⟨1, buffer, w⟩
  else if vfile.flags &&& VFLAG_CALLBACK != 0 then
    match vMemCallbacks[vfile.offset]? with
    | none => none
    | some handler =>
      some (handler p { w with trace := w.trace ++ [Event.callback vfile.offset true] }
        vfile true buffer offset count)
  else
    let foffset := (vfile.offset + offset) % 2 ^ 32
    some ⟨0, buffer, { w with mem := memcpyToMem w.mem foffset buffer count }⟩

/-! ## Sessions and test fixtures -/

/-- An enumeration session: call `ReadVMemDir` until it returns `false` and collect
the descriptors it reported.  `none` when a call is undefined or when `calls` calls
were not enough to reach `false`. -/
def enumerateOver (p : Platform) (templates : List VirtualFile) :
    Nat → VirtualFile → VirtualDir → Option (List VirtualFile)
  | 0, _, _ => none
  | calls + 1, vfile, vdir =>
    match readVMemDirOver p templates vfile vdir with
    | none => none
    | some (false, _, _) => some []
    | some (true, vfile, vdir) => (enumerateOver p templates calls vfile vdir).map (vfile :: ·)

def enumerateVMemDir (p : Platform) (calls : Nat) (vfile : VirtualFile) (vdir : VirtualDir) :
    Option (List VirtualFile) :=
  enumerateOver p (vMemFileTemplates p) calls vfile vdir

/-- A sequence of calls of `ReadVMemDir` on one cursor, the hardware facts of each
call given by its own platform; the result of every call, in order. -/
def callsVMemDir : List Platform → VirtualFile → VirtualDir →
    Option (List (Bool × VirtualFile × VirtualDir))
  | [], _, _ => some []
  | q :: qs, vfile, vdir =>
    match ReadVMemDir q vfile vdir with
    | none => none
    | some r => (callsVMemDir qs r.2.1 r.2.2).map (r :: ·)

/-- A retail new-model console, unlocked, both boot ROMs present; a stub bus and a
toy cipher that xors every byte with the first key byte and the first IV byte. -/
def testPlatform : Platform where
  IS_O3DS := false
  IS_UNLOCKED := true
  IS_DEVKIT := false
  sizeof_Otp := 0x100
  I2C_DEV_MCU := 3
  I2C_DEV_MCU_TWL := 0
  SHA256_MODE := 0
  AES_CNT_TITLEKEY_DECRYPT_MODE := 0
  sha_cmp := fun _ _ _ _ => 0
  i2cReadRegister := fun device register => (7 * device + register) % 256
  cbc_decrypt := fun key input _ _ iv => input.map (fun b => b ^^^ key.headD 0 ^^^ iv.headD 0)

/-- The same console as an old model that is still locked. -/
def oldLockedPlatform : Platform := { testPlatform with IS_O3DS := true, IS_UNLOCKED := false }

/-- A world whose memory holds `0xAA` everywhere, with nothing done yet. -/
def testWorld : World where
  mem := fun _ => 0xAA
  aes := ⟨fun _ => [], []⟩
  trace := []

/-- A world whose memory byte at address `a` is `a % 251`. -/
def otpWorld : World where
  mem := fun a => a % 251
  aes := ⟨fun _ => [], []⟩
  trace := []

/-- A buffer of zeroes. -/
def zeroBuffer : Buffer := fun _ => 0

/-- A read-only direct entry of 16 bytes at a test address. -/
def testEntry : VirtualFile := ⟨"test.mem", 0x20000000, 16, 0xFF, VFLAG_READ_ONLY⟩

/-- The catalog entry `otp_dec.mem`. -/
def otpDecFile : VirtualFile :=
  ⟨"otp_dec.mem", VMEM_CALLBACK_OTP_DECRYPTED, 0x00000100, 0x11,
    VFLAG_CALLBACK ||| VFLAG_READ_ONLY ||| VFLAG_OTP ||| VFLAG_BOOT9⟩

/-- A descriptor routed to the decrypting reader whose size field is only 0x10. -/
def shortOtpFile : VirtualFile :=
  ⟨"otp_short.mem", VMEM_CALLBACK_OTP_DECRYPTED, 0x10, 0x11, VFLAG_CALLBACK ||| VFLAG_READ_ONLY⟩

/-- The first catalog entry, `itcm.mem`: direct, writable, 0x8000 bytes. -/
def itcmFile : VirtualFile := ⟨"itcm.mem", 0x01FF8000, 0x00008000, 0xFF, 0⟩

/-- A direct, writable descriptor whose region reaches past the 32-bit address
space. -/
def highFile : VirtualFile := ⟨"high.mem", 0xFFFFFFF0, 0x100, 0xFF, 0⟩

/-! ## System information (`source/sysinfo.c`)

Characters are their codes: `' '` is 32, `'~'` 126, `'0'` 48, `'9'` 57.  A `char`
array is a list of codes, a C string is the part of an array before its first NUL. -/

/-- The characters of a string literal, as codes. -/
def chars (s : String) : List Nat := s.toList.map Char.toNat

/-- The C string held by a `char` array: the codes before the first NUL. -/
def cString (a : List Nat) : List Nat := a.takeWhile (fun c => c ≠ 0)

/-- The library function `strlen`. -/
def strlen (a : List Nat) : Nat := (cString a).length

/-- The library function `strncpy` on arrays: the first `n` positions of `dst` receive
the C string of `src`, cut at `n` characters and padded with NULs up to `n`. -/
def strncpy (dst src : List Nat) (n : Nat) : List Nat :=
  let s := (cString src).take n
  s ++ List.replicate (n - s.length) 0 ++ dst.drop n

/-- The table `s_salesRegions`: serial character and region name. -/
def s_salesRegions : List (Nat × String) :=
  [ (74, "Japan"), (87, "Americas"), (69, "Europe"), (67, "China"), (75, "Korea"),
    (84, "Taiwan"), (83, "Middle East"), (65, "Australia") ]

/-- The model numbers `MODEL_OLD_3DS`, `MODEL_OLD_3DS_XL` and `MODEL_NEW_3DS`: the
indices of these models in the table `s_modelNames`, as its comments give them. -/
def MODEL_OLD_3DS : Nat := 0
def MODEL_OLD_3DS_XL : Nat := 1
def MODEL_NEW_3DS : Nat := 2

/-- The structure `SysInfo`; every text field is a `char` array. -/
structure SysInfo where
  int_model : Nat
  model : List Nat
  product_code : List Nat
  sub_model : List Nat
  serial : List Nat
  system_region : List Nat
  sales_region : List Nat
deriving DecidableEq, Repr

/-- The two fields of the record `SecureInfo` that `sysinfo.c` reads: the region byte
and the array `serial` of 15 characters (the loop reads positions 0 to 14, and the
static assertion keeps it shorter than the 16 characters of `info->serial`). -/
structure SecureInfo where
  region : Nat
  serial : List Nat
deriving DecidableEq, Repr

/-- What `sysinfo.c` takes from other files: the number and the long names of the
regions, and `fvx_qread`, here the record a path delivers when the read returns
`FR_OK` with the full size, `none` otherwise. -/
structure SysEnv where
  SMDH_NUM_REGIONS : Nat
  g_regionNamesLong : Nat → List Nat
  fvx_qread : String → Option SecureInfo

/-- The static buffer `path` with the drive and the letter A or B filled in. -/
def secureInfoPath (nand_drive which : Char) : String :=
  String.mk ((("_:/rw/sys/SecureInfo__".toList).set 0 nand_drive).set 21 which)

/-- The loop "try SecureInfo_A then SecureInfo_B"; `none` is `got_data = false`. -/
def readSecureInfo (e : SysEnv) (nand_drive : Char) : Option SecureInfo :=
  match e.fvx_qread (secureInfoPath nand_drive (Char.ofNat 65)) with
  | some data => some data
  | none => e.fvx_qread (secureInfoPath nand_drive (Char.ofNat 66))

/-- The variables of the serial loop of `GetSysInfo_SecureInfo`, with the array
`info->serial` it writes to. -/
structure SerialScan where
  serial : List Nat
  got_serial : Bool
  second_letter : Nat
  first_digit : Nat
  second_digit : Nat
  digits : Nat
  letters : Nat
  odds : Nat
  evens : Nat
deriving DecidableEq, Repr

/-- The two last branches of the loop body, for a printable character `ch`: a digit
is counted and added to `odds` or `evens`, any other character is counted as a
letter. -/
def countSerialChar (s : SerialScan) (ch : Nat) : SerialScan :=
  if 48 ≤ ch ∧ ch ≤ 57 then
    let digits := s.digits + 1
    let s :=
      if digits % 2 ≠ 0 then { s with digits := digits, odds := s.odds + (ch - 48) }
      else { s with digits := digits, evens := s.evens + (ch - 48) }
    if digits = 1 then { s with first_digit := ch }
    else if digits = 2 then { s with second_digit := ch }
    else s
  else
    let letters := s.letters + 1
    let s := { s with letters := letters }
    if letters = 2 then { s with second_letter := ch } else s

/-- The loop `for (x = 0; x < 15; ++x)` over `data.serial`; `remaining` is `15 - x`,
returning early is `break`. -/
def scanSerialLoop (data_serial : List Nat) : Nat → Nat → SerialScan → SerialScan
  | 0, _, s => s
  | remaining + 1, x, s =>
    let ch := data_serial.getD x 0
    let s := { s with serial := s.serial.set x ch }
    if ch = 0 then s
    else if ch < 32 ∨ ch > 126 then { s with got_serial := false }
    else scanSerialLoop data_serial remaining (x + 1) (countSerialChar s ch)

/-- The check digit appended to a serial with 8 digits. -/
def checkDigit (odds evens : Nat) : Nat :=
  let check_value := 10 - ((3 * evens + odds) % 10)
  if check_value = 10 then 48 else check_value + 48

/-- The sub-model chosen from the first two digits of the serial. -/
def subModelName (p : Platform) (int_model first_digit second_digit : Nat) : String :=
  if p.IS_DEVKIT then
    if first_digit = 57 ∧ second_digit = 48 ∧ int_model = MODEL_OLD_3DS then "Partner-CTR"
    else if first_digit = 57 ∧ second_digit = 49 ∧ int_model = MODEL_OLD_3DS then "IS-CTR-BOX"
    else if first_digit = 57 ∧ second_digit = 49 ∧ int_model = MODEL_OLD_3DS_XL then
      "IS-SPR-BOX"
    else if first_digit = 57 ∧ second_digit = 49 ∧ int_model = MODEL_NEW_3DS then
      "IS-SNAKE-BOX"
    else "panda"
  else
    if first_digit = 48 ∧ second_digit = 49 ∧ !p.IS_O3DS then "press"
    else "retail"

/-- The part of `GetSysInfo_SecureInfo` from "Copy the serial out" to the appended
check digit: the final contents of `info->serial`. -/
def finishSerial (serial data_serial : List Nat) (s : SerialScan) : List Nat :=
  let serial := (strncpy serial data_serial 15).set 15 0
  let length := strlen serial
  if length < 16 - 1 ∧ s.digits = 8 then
    (serial.set length (checkDigit s.odds s.evens)).set (length + 1) 0
  else serial

def GetSysInfo_SecureInfo (p : Platform) (e : SysEnv) (info : SysInfo) (nand_drive : Char) :
    SysInfo :=
  let info := { info with
    sub_model := strncpy info.sub_model (chars "<unknown>") 16
    serial := strncpy info.serial (chars "<unknown>") 16
    system_region := strncpy info.system_region (chars "<unknown>") 16
    sales_region := strncpy info.sales_region (chars "<unknown>") 16 }
  match readSecureInfo e nand_drive with
  | none => info
  | some data =>
    let info :=
      if data.region < e.SMDH_NUM_REGIONS then
        { info with
          system_region := strncpy info.system_region (e.g_regionNamesLong data.region) 16 }
      else info
    let s := scanSerialLoop data.serial 15 0 ⟨info.serial, true, 0, 0, 0, 0, 0, 0, 0⟩
    let info := { info with serial := s.serial }
    if !s.got_serial then info
    else
      let info := { info with serial := finishSerial info.serial data.serial s }
      let info :=
        if s.second_letter ≠ 0 then
          match s_salesRegions.find? (fun r => r.1 = s.second_letter) with
          | some r => { info with sales_region := strncpy info.sales_region (chars r.2) 16 }
          | none => info
        else info
      if s.first_digit ≠ 0 ∧ s.second_digit ≠ 0 then
        let name := subModelName p info.int_model s.first_digit s.second_digit
        { info with sub_model := strncpy info.sub_model (chars name) 16 }
      else info

/-- The raw serial: the C string in `data.serial`. -/
def rawSerial (data : SecureInfo) : List Nat := cString data.serial

/-- The values of the decimal digits of a text, in order. -/
def digitValues (text : List Nat) : List Nat :=
  (text.filter (fun c => 48 ≤ c ∧ c ≤ 57)).map (fun c => c - 48)

/-- The sum of the elements of a list that stand at a position `j` (from 0) with
`k + j` even: for `k = 0` the 1st, 3rd, 5th, ... element, for `k = 1` the 2nd, 4th,
6th, ... -/
def alternateSum : Nat → List Nat → Nat
  | _, [] => 0
  | k, v :: vs => (if k % 2 = 0 then v else 0) + alternateSum (k + 1) vs

/-- A `SysInfo` before anything was read: all arrays 16 NULs (4 for the product
code). -/
def blankInfo : SysInfo :=
  ⟨0xFF, List.replicate 16 0, List.replicate 4 0, List.replicate 16 0, List.replicate 16 0,
    List.replicate 16 0, List.replicate 16 0⟩

/-- The record in the file of `secureInfoWith`. -/
def secureInfoData (serial : List Nat) : SecureInfo :=
  ⟨2, serial ++ List.replicate (15 - serial.length) 0⟩

/-- A `SecureInfo_A` file holding the given serial, padded with NULs to 15
characters, in region 2. -/
def secureInfoWith (serial : List Nat) : SysEnv where
  SMDH_NUM_REGIONS := 7
  g_regionNamesLong := fun _ => chars "Europe"
  fvx_qread := fun path =>
    if path = "1:/rw/sys/SecureInfo_A" then some (secureInfoData serial) else none

/-! ## Arithmetic of the range checks -/

theorem wrapped_sum_lt_of_overflow {offset count : Nat} (ho : offset < 2 ^ 64)
    (hc : count < 2 ^ 64) (h : 2 ^ 64 ≤ offset + count) :
    (offset + count) % 2 ^ 64 < offset := by
  omega

theorem wrapped_sum_eq {offset count : Nat} (h : offset + count < 2 ^ 64) :
    (offset + count) % 2 ^ 64 = offset + count :=
  Nat.mod_eq_of_lt h

/-- Any 64-bit request reaching past `bound` fails at least one of the two tests the
handlers make. -/
theorem range_tests_reject {offset count bound : Nat} (ho : offset < 2 ^ 64)
    (hc : count < 2 ^ 64) (h : bound < offset + count ∨ 2 ^ 64 ≤ offset + count) :
    (offset + count) % 2 ^ 64 < offset ∨ bound < (offset + count) % 2 ^ 64 := by
  by_cases hov : 2 ^ 64 ≤ offset + count
  · exact Or.inl (wrapped_sum_lt_of_overflow ho hc hov)
  · right
    rw [wrapped_sum_eq (by omega)]
    omega

/-- Any request within `bound` passes both tests, when `bound` is a 64-bit value. -/
theorem range_tests_accept {offset count : Nat} (bound : Nat) (hb : bound < 2 ^ 64)
    (h : offset + count ≤ bound) :
    ¬ (offset + count) % 2 ^ 64 < offset ∧ ¬ bound < (offset + count) % 2 ^ 64 := by
  rw [wrapped_sum_eq (by omega)]
  omega

/-! ## The handlers on a rejected and on an accepted range -/

theorem otp_rejects (p : Platform) (w : World) (vfile : VirtualFile) (buffer : Buffer)
    {offset count : Nat}
    (h : (offset + count) % 2 ^ 64 < offset ∨ p.sizeof_Otp < (offset + count) % 2 ^ 64) :
    ReadWriteVMemOTPDecrypted p w vfile false buffer offset count = ⟨1, buffer, w⟩ := by
  unfold ReadWriteVMemOTPDecrypted
  simp only [Bool.false_eq_true, if_false]
  by_cases h1 : (offset + count) % 2 ^ 64 < offset
  · rw [if_pos h1]
  · rw [if_neg h1, if_pos (h.resolve_left h1)]

theorem mcu_rejects (p : Platform) (w : World) (vfile : VirtualFile) (buffer : Buffer)
    {offset count : Nat}
    (h : (offset + count) % 2 ^ 64 < offset ∨ vfile.size < (offset + count) % 2 ^ 64) :
    ReadWriteVMemMCURegisters p w vfile false buffer offset count = ⟨1, buffer, w⟩ := by
  unfold ReadWriteVMemMCURegisters
  simp only [Bool.false_eq_true, if_false]
  by_cases h1 : (offset + count) % 2 ^ 64 < offset
  · rw [if_pos h1]
  · rw [if_neg h1, if_pos (h.resolve_left h1)]

theorem callbacks_at_otp :
    vMemCallbacks[VMEM_CALLBACK_OTP_DECRYPTED]? = some ReadWriteVMemOTPDecrypted := rfl

theorem callbacks_at_mcu :
    vMemCallbacks[VMEM_CALLBACK_MCU_REGISTERS]? = some ReadWriteVMemMCURegisters := rfl

/-! ## The dispatcher on requests out of range -/

/-- C1 (as amended): `ReadVMemFile` makes no bounds check of its own.  For 64-bit
`offset`, `count` with `offset + count` past the descriptor size or past 64 bits, a
callback descriptor routed to the MCU handler, or routed to the OTP handler with a
size of at least `sizeof(Otp)`, gives return code 1 with the buffer untouched and no
bus or cipher operation; a direct descriptor gives return code 0 and the buffer
receives the bytes a `memcpy` of `count` bytes from the 32-bit address
`offset field + offset` delivers. -/
theorem ReadVMemFile_out_of_range (p : Platform) (w : World) (vfile : VirtualFile)
    (buffer : Buffer) (offset count : Nat) (ho : offset < 2 ^ 64) (hc : count < 2 ^ 64)
    (hr : vfile.size < offset + count ∨ 2 ^ 64 ≤ offset + count) :
    (vfile.flags &&& VFLAG_CALLBACK ≠ 0 →
      (vfile.offset = VMEM_CALLBACK_MCU_REGISTERS ∨
        (vfile.offset = VMEM_CALLBACK_OTP_DECRYPTED ∧ p.sizeof_Otp ≤ vfile.size)) →
      ReadVMemFile p w vfile buffer offset count =
        some ⟨1, buffer, { w with trace := w.trace ++ [Event.callback vfile.offset false] }⟩) ∧
    (vfile.flags &&& VFLAG_CALLBACK = 0 →
      ReadVMemFile p w vfile buffer offset count =
        some ⟨0, memcpyFromMem buffer w.mem ((vfile.offset + offset) % 2 ^ 32) count, w⟩) := by
  refine ⟨fun hcb hroute => ?_, fun hd => ?_⟩
  · rcases hroute with hm | ⟨hd, hs⟩
    · simp only [ReadVMemFile, hcb, bne_iff_ne, ne_eq, not_false_eq_true, if_true, hm,
        callbacks_at_mcu]
      rw [mcu_rejects]
      exact range_tests_reject ho hc hr
    · simp only [ReadVMemFile, hcb, bne_iff_ne, ne_eq, not_false_eq_true, if_true, hd,
        callbacks_at_otp]
      rw [otp_rejects]
      have hr2 : p.sizeof_Otp < offset + count ∨ 2 ^ 64 ≤ offset + count := by
        rcases hr with hr | hr
        · exact Or.inl (by omega)
        · exact Or.inr hr
      exact range_tests_reject ho hc hr2
  · simp [ReadVMemFile, hd]

/-- C1, witness: the MCU catalog entry asked for 1 byte at offset 0x100, and
`itcm.mem` asked for 1 byte at offset 0x8000. -/
theorem ReadVMemFile_out_of_range_witness :
    ReadVMemFile testPlatform testWorld
        ⟨"mcu_3ds_regs.bin", VMEM_CALLBACK_MCU_REGISTERS, 0x100, 3,
          VFLAG_CALLBACK ||| VFLAG_READ_ONLY⟩ zeroBuffer 0x100 1 =
      some ⟨1, zeroBuffer, { testWorld with trace := testWorld.trace ++
        [Event.callback VMEM_CALLBACK_MCU_REGISTERS false] }⟩ ∧
    ReadVMemFile testPlatform testWorld itcmFile zeroBuffer 0x8000 1 =
      some ⟨0, memcpyFromMem zeroBuffer testWorld.mem
        ((itcmFile.offset + 0x8000) % 2 ^ 32) 1, testWorld⟩ :=
  ⟨(ReadVMemFile_out_of_range testPlatform testWorld
      ⟨"mcu_3ds_regs.bin", VMEM_CALLBACK_MCU_REGISTERS, 0x100, 3,
        VFLAG_CALLBACK ||| VFLAG_READ_ONLY⟩ zeroBuffer 0x100 1 (by decide) (by decide)
      (Or.inl (by decide))).1 (by decide) (Or.inl rfl),
   (ReadVMemFile_out_of_range testPlatform testWorld itcmFile zeroBuffer 0x8000 1
      (by decide) (by decide) (Or.inl (by decide))).2 (by decide)⟩

/-- C1, counterexample: `itcm.mem` is 0x8000 bytes long, yet a read of 1 byte at
offset 0x8000 returns 0 and copies the byte at address 0x02000000 into the buffer. -/
theorem ReadVMemFile_out_of_range_counterexample :
    itcmFile ∈ vMemFileTemplates testPlatform ∧
    itcmFile.size < 0x8000 + 1 ∧
    (ReadVMemFile testPlatform testWorld itcmFile zeroBuffer 0x8000 1).map
      (fun o => (o.ret, o.buffer 0)) = some (0, 0xAA) ∧
    zeroBuffer 0 ≠ 0xAA := by
  refine ⟨by simp [vMemFileTemplates, itcmFile], by decide, by rfl, by decide⟩

/-- C2 (as amended): `WriteVMemFile` makes no bounds check either.  For a descriptor
without the read-only flag and every `offset` and `count`, in range or not: a
callback descriptor routed to one of the two handlers gives return code 1, with
memory, buffer and engine untouched and no bus or cipher operation (the handlers
reject writing before any range test); a direct descriptor gives return code 0 and
memory receives the `count` bytes of a `memcpy` to the 32-bit address
`offset field + offset`. -/
theorem WriteVMemFile_no_bounds_check (p : Platform) (w : World) (vfile : VirtualFile)
    (buffer : Buffer) (offset count : Nat) (hro : vfile.flags &&& VFLAG_READ_ONLY = 0) :
    (vfile.flags &&& VFLAG_CALLBACK ≠ 0 → vfile.offset < VMEM_NUM_CALLBACKS →
      WriteVMemFile p w vfile buffer offset count =
        some ⟨1, buffer, { w with trace := w.trace ++ [Event.callback vfile.offset true] }⟩) ∧
    (vfile.flags &&& VFLAG_CALLBACK = 0 →
      WriteVMemFile p w vfile buffer offset count =
        some ⟨0, buffer,
          ⟨memcpyToMem w.mem ((vfile.offset + offset) % 2 ^ 32) buffer count, w.aes, w.trace⟩⟩) := by
  refine ⟨fun hcb hid => ?_, fun hd => ?_⟩
  · have hid2 : vfile.offset = 0 ∨ vfile.offset = 1 := by
      unfold VMEM_NUM_CALLBACKS at hid
      omega
    rcases hid2 with h0 | h1
    · simp [WriteVMemFile, hro, hcb, h0, vMemCallbacks, ReadWriteVMemOTPDecrypted]
    · simp [WriteVMemFile, hro, hcb, h1, vMemCallbacks, ReadWriteVMemMCURegisters]
  · simp [WriteVMemFile, hro, hd]

/-- C2, witness: a writable MCU descriptor asked to write 1 byte at offset 0x100,
and `itcm.mem` asked to write 1 byte at offset 0x8000. -/
theorem WriteVMemFile_no_bounds_check_witness :
    WriteVMemFile testPlatform testWorld
        ⟨"mcu", VMEM_CALLBACK_MCU_REGISTERS, 0x100, 3, VFLAG_CALLBACK⟩ zeroBuffer 0x100 1 =
      some ⟨1, zeroBuffer, { testWorld with trace := testWorld.trace ++
        [Event.callback VMEM_CALLBACK_MCU_REGISTERS true] }⟩ ∧
    WriteVMemFile testPlatform testWorld itcmFile zeroBuffer 0x8000 1 =
      some ⟨0, zeroBuffer,
        ⟨memcpyToMem testWorld.mem ((itcmFile.offset + 0x8000) % 2 ^ 32) zeroBuffer 1,
          testWorld.aes, testWorld.trace⟩⟩ :=
  ⟨(WriteVMemFile_no_bounds_check testPlatform testWorld
      ⟨"mcu", VMEM_CALLBACK_MCU_REGISTERS, 0x100, 3, VFLAG_CALLBACK⟩ zeroBuffer 0x100 1
      (by decide)).1 (by decide) (by decide),
   (WriteVMemFile_no_bounds_check testPlatform testWorld itcmFile zeroBuffer 0x8000 1
      (by decide)).2 (by decide)⟩

/-- C2, counterexample: `itcm.mem` has no read-only flag and is 0x8000 bytes long,
yet a write of 1 byte at offset 0x8000 returns 0 and overwrites the byte at address
0x02000000. -/
theorem WriteVMemFile_out_of_range_counterexample :
    itcmFile ∈ vMemFileTemplates testPlatform ∧
    itcmFile.flags &&& VFLAG_READ_ONLY = 0 ∧
    itcmFile.size < 0x8000 + 1 ∧
    (WriteVMemFile testPlatform testWorld itcmFile zeroBuffer 0x8000 1).map
      (fun o => (o.ret, o.world.mem 0x02000000)) = some (0, 0) ∧
    testWorld.mem 0x02000000 ≠ 0 := by
  refine ⟨by simp [vMemFileTemplates, itcmFile], by decide, by decide, by rfl, by decide⟩

/-- C3: for a descriptor with `VFLAG_READ_ONLY`, whatever the buffer, offset and
count and whatever the other flags and the handler id, `WriteVMemFile` returns 1 and
hands back the buffer and the whole world (memory, engine, trace of handler calls
and hardware operations) as they were. -/
theorem WriteVMemFile_read_only (p : Platform) (w : World) (vfile : VirtualFile)
    (buffer : Buffer) (offset count : Nat) (hro : vfile.flags &&& VFLAG_READ_ONLY ≠ 0) :
    WriteVMemFile p w vfile buffer offset count = some ⟨1, buffer, w⟩ := by
  simp [WriteVMemFile, hro]

/-- C3, witness: a write to the read-only callback entry `otp_dec.mem`. -/
theorem WriteVMemFile_read_only_witness :
    WriteVMemFile testPlatform testWorld
        ⟨"otp_dec.mem", VMEM_CALLBACK_OTP_DECRYPTED, 0x100, 0x11,
          VFLAG_CALLBACK ||| VFLAG_READ_ONLY ||| VFLAG_OTP ||| VFLAG_BOOT9⟩ zeroBuffer 0 1 =
      some ⟨1, zeroBuffer, testWorld⟩ :=
  WriteVMemFile_read_only testPlatform testWorld
    ⟨"otp_dec.mem", VMEM_CALLBACK_OTP_DECRYPTED, 0x100, 0x11,
      VFLAG_CALLBACK ||| VFLAG_READ_ONLY ||| VFLAG_OTP ||| VFLAG_BOOT9⟩ zeroBuffer 0 1
    (by decide)

/-! ## Reads within range -/

theorem otp_accepts_ret (p : Platform) (w : World) (vfile : VirtualFile) (buffer : Buffer)
    {offset count : Nat} (h1 : ¬ (offset + count) % 2 ^ 64 < offset)
    (h2 : ¬ p.sizeof_Otp < (offset + count) % 2 ^ 64) :
    (ReadWriteVMemOTPDecrypted p w vfile false buffer offset count).ret = 0 := by
  unfold ReadWriteVMemOTPDecrypted
  simp only [Bool.false_eq_true, if_false]
  rw [if_neg h1, if_neg (by simpa using h2)]

theorem mcu_accepts_ret (p : Platform) (w : World) (vfile : VirtualFile) (buffer : Buffer)
    {offset count : Nat} (h1 : ¬ (offset + count) % 2 ^ 64 < offset)
    (h2 : ¬ vfile.size < (offset + count) % 2 ^ 64) :
    (ReadWriteVMemMCURegisters p w vfile false buffer offset count).ret = 0 := by
  unfold ReadWriteVMemMCURegisters
  simp only [Bool.false_eq_true, if_false]
  rw [if_neg h1, if_neg (by simpa using h2)]

/-- The catalog entries, split by handler type: a direct entry lies below 2^32, a
callback entry names one of the two handlers and is 0x100 bytes long. -/
theorem catalog_entry_shape (p : Platform) (hp : p.sizeof_Otp = 0x100) (vfile : VirtualFile)
    (hv : vfile ∈ vMemFileTemplates p) :
    (vfile.flags &&& VFLAG_CALLBACK = 0 ∧ vfile.offset + vfile.size ≤ 2 ^ 32 ∧
      vfile.size < 2 ^ 32) ∨
    (vfile.flags &&& VFLAG_CALLBACK ≠ 0 ∧ vfile.size = 0x100 ∧
      (vfile.offset = VMEM_CALLBACK_OTP_DECRYPTED ∨
        vfile.offset = VMEM_CALLBACK_MCU_REGISTERS)) := by
  simp only [vMemFileTemplates, List.mem_cons, List.mem_singleton, List.not_mem_nil,
    or_false, hp] at hv
  rcases hv with h | h | h | h | h | h | h | h | h | h | h | h | h | h | h <;> subst h
  all_goals first
    | exact Or.inl (by decide)
    | exact Or.inr ⟨by dsimp only; decide, rfl, by dsimp only; decide⟩

/-- A direct read that stays inside a region below 2^32 copies exactly the bytes of
the region. -/
theorem direct_read_in_range (p : Platform) (w : World) (vfile : VirtualFile)
    (buffer : Buffer) (offset count : Nat) (hd : vfile.flags &&& VFLAG_CALLBACK = 0)
    (hfit : vfile.offset + vfile.size ≤ 2 ^ 32) (hsz : vfile.size < 2 ^ 32)
    (hr : offset + count ≤ vfile.size) :
    ∃ out, ReadVMemFile p w vfile buffer offset count = some out ∧ out.ret = 0 ∧
      (∀ i, i < count → out.buffer i = w.mem (vfile.offset + offset + i)) ∧
      (∀ i, count ≤ i → out.buffer i = buffer i) ∧ out.world = w := by
  refine ⟨⟨0, memcpyFromMem buffer w.mem ((vfile.offset + offset) % 2 ^ 32) count, w⟩,
    by simp [ReadVMemFile, hd], rfl, ?_, ?_, rfl⟩
  · intro i hi
    have hc : count % 2 ^ 32 = count := Nat.mod_eq_of_lt (by omega)
    have hf : (vfile.offset + offset) % 2 ^ 32 = vfile.offset + offset :=
      Nat.mod_eq_of_lt (by omega)
    show (if i < size_t count then _ else _) = _
    rw [size_t, hc, if_pos hi, hf]
  · intro i hi
    have hc : count % 2 ^ 32 = count := Nat.mod_eq_of_lt (by omega)
    show (if i < size_t count then _ else _) = _
    rw [size_t, hc, if_neg (by omega)]

/-- C4: for a catalog descriptor (the type `Otp` being 0x100 bytes) and for any
direct descriptor of a region below 2^32, a read with `offset + count <= size`
returns 0; if the descriptor is direct, the first `count` bytes of the buffer are
then the memory bytes at `offset field + offset + i`, the rest of the buffer and the
world are as before. -/
theorem ReadVMemFile_in_range (p : Platform) (hp : p.sizeof_Otp = 0x100) (w : World)
    (vfile : VirtualFile) (buffer : Buffer) (offset count : Nat)
    (hv : vfile ∈ vMemFileTemplates p ∨
      (vfile.flags &&& VFLAG_CALLBACK = 0 ∧ vfile.offset + vfile.size ≤ 2 ^ 32 ∧
        vfile.size < 2 ^ 32))
    (hr : offset + count ≤ vfile.size) :
    ∃ out, ReadVMemFile p w vfile buffer offset count = some out ∧ out.ret = 0 ∧
      (vfile.flags &&& VFLAG_CALLBACK = 0 →
        (∀ i, i < count → out.buffer i = w.mem (vfile.offset + offset + i)) ∧
        (∀ i, count ≤ i → out.buffer i = buffer i) ∧ out.world = w) := by
  have hshape : (vfile.flags &&& VFLAG_CALLBACK = 0 ∧ vfile.offset + vfile.size ≤ 2 ^ 32 ∧
        vfile.size < 2 ^ 32) ∨
      (vfile.flags &&& VFLAG_CALLBACK ≠ 0 ∧ vfile.size = 0x100 ∧
        (vfile.offset = VMEM_CALLBACK_OTP_DECRYPTED ∨
          vfile.offset = VMEM_CALLBACK_MCU_REGISTERS)) := by
    rcases hv with hv | hv
    · exact catalog_entry_shape p hp vfile hv
    · exact Or.inl hv
  rcases hshape with ⟨hd, hfit, hsz⟩ | ⟨hcb, hsize, hid⟩
  · obtain ⟨out, h1, h2, h3⟩ := direct_read_in_range p w vfile buffer offset count hd hfit hsz hr
    exact ⟨out, h1, h2, fun _ => h3⟩
  · have hacc := range_tests_accept vfile.size (by omega) hr
    rcases hid with h0 | h1
    · refine ⟨ReadWriteVMemOTPDecrypted p
          { w with trace := w.trace ++ [Event.callback vfile.offset false] }
          vfile false buffer offset count,
        by simp only [ReadVMemFile, hcb, bne_iff_ne, ne_eq, not_false_eq_true,
          if_true, h0, callbacks_at_otp], ?_, fun hd => absurd hd hcb⟩
      exact otp_accepts_ret p _ vfile buffer hacc.1 (by rw [hp, ← hsize]; exact hacc.2)
    · refine ⟨ReadWriteVMemMCURegisters p
          { w with trace := w.trace ++ [Event.callback vfile.offset false] }
          vfile false buffer offset count,
        by simp only [ReadVMemFile, hcb, bne_iff_ne, ne_eq, not_false_eq_true,
          if_true, h1, callbacks_at_mcu], ?_, fun hd => absurd hd hcb⟩
      exact mcu_accepts_ret p _ vfile buffer hacc.1 hacc.2

/-- C4, witness: the 16-byte read-only direct entry over memory filled with 0xAA,
read in full, and the catalog entry `otp_dec.mem`, read in full. -/
theorem ReadVMemFile_in_range_witness :
    (testWorld.mem = fun _ => 0xAA) ∧
    (∃ out, ReadVMemFile testPlatform testWorld testEntry zeroBuffer 0 16 = some out ∧
      out.ret = 0 ∧
      (testEntry.flags &&& VFLAG_CALLBACK = 0 →
        (∀ i, i < 16 → out.buffer i = testWorld.mem (testEntry.offset + 0 + i)) ∧
        (∀ i, 16 ≤ i → out.buffer i = zeroBuffer i) ∧ out.world = testWorld)) ∧
    (∃ out, ReadVMemFile testPlatform testWorld otpDecFile zeroBuffer 0 0x100 = some out ∧
      out.ret = 0 ∧
      (otpDecFile.flags &&& VFLAG_CALLBACK = 0 →
        (∀ i, i < 0x100 → out.buffer i = testWorld.mem (otpDecFile.offset + 0 + i)) ∧
        (∀ i, 0x100 ≤ i → out.buffer i = zeroBuffer i) ∧ out.world = testWorld)) :=
  ⟨rfl,
   ReadVMemFile_in_range testPlatform rfl testWorld testEntry zeroBuffer 0 16
     (Or.inr ⟨by decide, by decide, by decide⟩) (by decide),
   ReadVMemFile_in_range testPlatform rfl testWorld otpDecFile zeroBuffer 0 0x100
     (Or.inl (by simp [vMemFileTemplates, otpDecFile])) (by decide)⟩

/-! ## The directory iterator -/

/-- Inside the range of an `int` nothing wraps. -/
theorem wrapInt_of_range (i : Int) (hlo : INT_MIN ≤ i) (hhi : i ≤ INT_MAX) : wrapInt i = i := by
  unfold INT_MIN at hlo
  unfold INT_MAX at hhi
  unfold wrapInt
  omega

/-- One past `INT_MAX` is `INT_MIN`. -/
theorem wrapInt_overflow : wrapInt (INT_MAX + 1) = INT_MIN := by decide

/-- Past the end of the table, and below `INT_MAX`, a call only increments the
cursor. -/
theorem readVMemDirOver_past_end (p : Platform) (ts : List VirtualFile) (vf : VirtualFile)
    (i : Int) (h : (ts.length : Int) ≤ i + 1) (hi : i + 1 ≤ INT_MAX) :
    readVMemDirOver p ts vf ⟨i⟩ = some (false, vf, ⟨i + 1⟩) := by
  have hw : wrapInt (i + 1) = i + 1 :=
    wrapInt_of_range (i + 1) (by unfold INT_MIN; omega) hi
  unfold readVMemDirOver
  simp only [readVMemDirLoop, hw]
  rw [if_neg (by omega)]

/-- One iteration of the loop, from the cursor just before entry `j`. -/
theorem readVMemDirOver_step (p : Platform) (ts : List VirtualFile) (vf : VirtualFile)
    (j : Nat) (t : VirtualFile) (ht : ts[j]? = some t) (hts : (ts.length : Int) ≤ INT_MAX) :
    readVMemDirOver p ts vf ⟨(j : Int) - 1⟩ =
      if specialFlagsHide p t.flags then readVMemDirOver p ts t ⟨(j : Int)⟩
      else some (true, t, ⟨(j : Int)⟩) := by
  have hj : j < ts.length := by
    rcases List.getElem?_eq_some_iff.mp ht with ⟨h, _⟩
    exact h
  have hw : wrapInt ((j : Int) - 1 + 1) = (j : Int) := by
    rw [sub_add_cancel]
    exact wrapInt_of_range (j : Int) (by unfold INT_MIN; omega) (by omega)
  unfold readVMemDirOver
  have hfuel : ((ts.length : Int) - ((j : Int) - 1)).toNat + 1
      = (((ts.length : Int) - (j : Int)).toNat + 1) + 1 := by omega
  simp only [hfuel]
  rw [readVMemDirLoop]
  simp only [hw, Int.toNat_ofNat, ht]
  rw [if_pos (by omega), if_neg (by omega)]

/-- A session started just before entry `j` reports the available entries from `j`
on, in table order, provided it may make one call more than there are entries left. -/
theorem enumerateOver_from (p : Platform) (ts : List VirtualFile)
    (hts : (ts.length : Int) < INT_MAX) :
    ∀ (l : List VirtualFile) (j : Nat) (vf : VirtualFile) (calls : Nat),
      ts.drop j = l → j ≤ ts.length → l.length + 1 ≤ calls →
      enumerateOver p ts calls vf ⟨(j : Int) - 1⟩ =
        some (l.filter (fun t => !specialFlagsHide p t.flags)) := by
  intro l
  induction l with
  | nil =>
    intro j vf calls hl hjle hc
    obtain ⟨c, rfl⟩ : ∃ c, calls = c + 1 := ⟨calls - 1, by simp at hc; omega⟩
    have hlen : ts.length ≤ j := List.drop_eq_nil_iff.mp hl
    rw [enumerateOver, readVMemDirOver_past_end p ts vf _ (by omega) (by omega)]
    rfl
  | cons t rest ih =>
    intro j vf calls hl _ hc
    obtain ⟨c, rfl⟩ : ∃ c, calls = c + 1 := ⟨calls - 1, by simp at hc; omega⟩
    have hj : j < ts.length := by
      by_contra hcon
      rw [List.drop_eq_nil_iff.mpr (by omega)] at hl
      exact List.noConfusion hl
    have ht : ts[j]? = some t := by
      rw [List.getElem?_eq_getElem hj, ← List.head_drop (by
        intro h0
        rw [h0] at hl
        exact List.noConfusion hl)]
      simp [hl]
    have hrest : ts.drop (j + 1) = rest := by
      rw [← List.drop_drop, hl]; rfl
    have hidx : ((j + 1 : Nat) : Int) - 1 = (j : Int) := by omega
    by_cases hh : specialFlagsHide p t.flags = true
    · have hnext := ih (j + 1) t (c + 1) hrest (by omega) (by simp at hc ⊢; omega)
      rw [hidx, enumerateOver] at hnext
      rw [enumerateOver, readVMemDirOver_step p ts vf j t ht (by omega), if_pos hh, hnext]
      simp [List.filter, hh]
    · have hnext := ih (j + 1) t c hrest (by omega) (by simp at hc ⊢; omega)
      rw [hidx] at hnext
      rw [enumerateOver, readVMemDirOver_step p ts vf j t ht (by omega), if_neg hh]
      simp only [hnext, Option.map_some']
      simp [List.filter, hh]

theorem isAvailable_eq (p : Platform) (d : VirtualFile) :
    isAvailable p d = !specialFlagsHide p d.flags := by
  unfold isAvailable specialFlagsHide
  by_cases h1 : d.flags &&& VFLAG_N3DS_ONLY = 0 <;>
  by_cases h2 : d.flags &&& VFLAG_OTP = 0 <;>
  by_cases h3 : d.flags &&& VFLAG_BOOT9 = 0 <;>
  by_cases h4 : d.flags &&& VFLAG_BOOT11 = 0 <;>
  cases p.IS_O3DS <;> cases p.IS_UNLOCKED <;>
  cases IsBoot9Available p <;> cases IsBoot11Available p <;>
  simp [h1, h2, h3, h4]

/-- Toggling a flag bit leaves the test of a different flag bit alone. -/
theorem and_xor_other_flag (f a b : Nat) (h : a &&& b = 0) : (f ^^^ a) &&& b = f &&& b := by
  rw [Nat.and_xor_distrib_right, h, Nat.xor_zero]

/-- C5: with the hardware facts fixed, a session from the cursor -1 that may make at
least one call more than the catalog has entries ends on a `false` return and
reports exactly the catalog entries that pass the Availability Filter, in catalog
order; an entry with none of the four gating flags is always among them; toggling
`VFLAG_READ_ONLY` or `VFLAG_CALLBACK` on a descriptor never changes its
availability. -/
theorem enumerateVMemDir_catalog (p : Platform) (vfile : VirtualFile) (calls : Nat)
    (hc : (vMemFileTemplates p).length + 1 ≤ calls) :
    enumerateVMemDir p calls vfile ⟨-1⟩ =
      some ((vMemFileTemplates p).filter (isAvailable p)) ∧
    (∀ t ∈ vMemFileTemplates p,
      t.flags &&& VFLAG_N3DS_ONLY = 0 → t.flags &&& VFLAG_OTP = 0 →
      t.flags &&& VFLAG_BOOT9 = 0 → t.flags &&& VFLAG_BOOT11 = 0 →
      t ∈ (vMemFileTemplates p).filter (isAvailable p)) ∧
    (∀ t : VirtualFile,
      isAvailable p { t with flags := t.flags ^^^ VFLAG_READ_ONLY } = isAvailable p t ∧
      isAvailable p { t with flags := t.flags ^^^ VFLAG_CALLBACK } = isAvailable p t) := by
  refine ⟨?_, ?_, ?_⟩
  · have hlen : ((vMemFileTemplates p).length : Int) = 15 := rfl
    have h := enumerateOver_from p (vMemFileTemplates p) (by rw [hlen]; decide)
      (vMemFileTemplates p) 0 vfile calls rfl (Nat.zero_le _) hc
    have hfun : (fun t : VirtualFile => !specialFlagsHide p t.flags) = isAvailable p :=
      funext (fun t => (isAvailable_eq p t).symm)
    rw [hfun] at h
    exact h
  · intro t ht h1 h2 h3 h4
    refine List.mem_filter.mpr ⟨ht, ?_⟩
    simp [isAvailable, h1, h2, h3, h4]
  · intro t
    constructor
    · simp only [isAvailable]
      rw [and_xor_other_flag _ _ _ (by decide), and_xor_other_flag _ _ _ (by decide),
        and_xor_other_flag _ _ _ (by decide), and_xor_other_flag _ _ _ (by decide)]
    · simp only [isAvailable]
      rw [and_xor_other_flag _ _ _ (by decide), and_xor_other_flag _ _ _ (by decide),
        and_xor_other_flag _ _ _ (by decide), and_xor_other_flag _ _ _ (by decide)]

/-- C5, witness: an old, locked console; 16 calls; the four entries gated by the
new model or by the unlock are missing from the report. -/
theorem enumerateVMemDir_catalog_witness :
    (vMemFileTemplates oldLockedPlatform).length + 1 ≤ 16 ∧
    enumerateVMemDir oldLockedPlatform 16 itcmFile ⟨-1⟩ =
      some ((vMemFileTemplates oldLockedPlatform).filter (isAvailable oldLockedPlatform)) ∧
    ((vMemFileTemplates oldLockedPlatform).filter (isAvailable oldLockedPlatform)).map
        (fun t => t.name) =
      ["itcm.mem", "arm9.mem", "boot9.bin", "boot11.bin", "vram.mem", "dsp.mem",
       "axiwram.mem", "fcram.mem", "dtcm.mem", "mcu_3ds_regs.bin", "mcu_dsi_regs.bin"] :=
  ⟨by decide, (enumerateVMemDir_catalog oldLockedPlatform itcmFile 16 (by decide)).1, by decide⟩

/-- The result of a 32-bit increment is a 32-bit value. -/
theorem wrapInt_range (i : Int) : INT_MIN ≤ wrapInt i ∧ wrapInt i ≤ INT_MAX := by
  unfold INT_MIN INT_MAX wrapInt
  omega

/-- The increment of an `int` in range: the next integer below `INT_MAX`, a negative
value at `INT_MAX`. -/
theorem wrapInt_succ (i : Int) (hlo : INT_MIN ≤ i) (hhi : i ≤ INT_MAX) :
    (wrapInt (i + 1) = i + 1 ∧ i + 1 ≤ INT_MAX) ∨ wrapInt (i + 1) < 0 := by
  unfold INT_MIN at hlo
  unfold INT_MAX at hhi ⊢
  unfold wrapInt
  omega

/-- A `false` return leaves the cursor at or past the end of the table. -/
theorem readVMemDirLoop_false_index (p : Platform) (ts : List VirtualFile) :
    ∀ (fuel : Nat) (vf : VirtualFile) (i : Int) (r : Bool × VirtualFile × VirtualDir),
      readVMemDirLoop p ts fuel vf i = some r → r.1 = false →
      (ts.length : Int) ≤ r.2.2.index := by
  intro fuel
  induction fuel with
  | zero =>
    intro vf i r h
    simp [readVMemDirLoop] at h
  | succ n ih =>
    intro vf i r h hf
    rw [readVMemDirLoop] at h
    simp only at h
    generalize wrapInt (i + 1) = w at h
    split at h
    · split at h
      · exact Option.noConfusion h
      · split at h
        · exact Option.noConfusion h
        · rename_i t ht
          split at h
          · exact ih t w r h hf
          · cases h
            exact absurd hf (by simp)
    · rename_i hge
      cases h
      simpa using hge

/-- What a completed run of the loop guarantees, from a cursor that is an `int`: the
cursor moved forward and is still an `int`; on `false` it is at or past the end of
the table; on `true` it points into the table, at the entry handed out, and that
entry is not hidden. -/
theorem readVMemDirLoop_result (p : Platform) (ts : List VirtualFile) :
    ∀ (fuel : Nat) (vf : VirtualFile) (i : Int) (r : Bool × VirtualFile × VirtualDir),
      INT_MIN ≤ i → i ≤ INT_MAX →
      readVMemDirLoop p ts fuel vf i = some r →
      i < r.2.2.index ∧ r.2.2.index ≤ INT_MAX ∧
      (r.1 = false → (ts.length : Int) ≤ r.2.2.index) ∧
      (r.1 = true → 0 ≤ r.2.2.index ∧ r.2.2.index < (ts.length : Int) ∧
        ts[r.2.2.index.toNat]? = some r.2.1 ∧ specialFlagsHide p r.2.1.flags = false) := by
  intro fuel
  induction fuel with
  | zero =>
    intro vf i r _ _ h
    simp [readVMemDirLoop] at h
  | succ n ih =>
    intro vf i r hlo hhi h
    have hcase := wrapInt_succ i hlo hhi
    rw [readVMemDirLoop] at h
    simp only at h
    generalize wrapInt (i + 1) = w at h hcase
    split at h
    · rename_i hlt
      split at h
      · exact Option.noConfusion h
      · rename_i hneg
        obtain ⟨hw, hwmax⟩ := hcase.resolve_right hneg
        subst hw
        split at h
        · exact Option.noConfusion h
        · rename_i t ht
          split at h
          · obtain ⟨h1, h2, h3, h4⟩ := ih t (i + 1) r
              (by unfold INT_MIN at hlo ⊢; omega) hwmax h
            exact ⟨by omega, h2, h3, h4⟩
          · rename_i hh
            cases h
            exact ⟨by simp, hwmax, by simp, fun _ => ⟨by simp; omega, by simpa using hlt,
              by simpa using ht, by simpa using hh⟩⟩
    · rename_i hge
      obtain ⟨hw, hwmax⟩ := hcase.resolve_right (by omega)
      subst hw
      cases h
      exact ⟨by simp, hwmax, fun _ => by simpa using hge, by simp⟩

/-- From a cursor at -1 or later and below `INT_MAX` the loop always completes, given
fuel for every entry left and the final test. -/
theorem readVMemDirLoop_total (p : Platform) (ts : List VirtualFile)
    (hts : (ts.length : Int) ≤ INT_MAX) :
    ∀ (fuel : Nat) (vf : VirtualFile) (i : Int), -1 ≤ i → i < INT_MAX →
      ((ts.length : Int) - i).toNat + 1 ≤ fuel →
      ∃ r, readVMemDirLoop p ts fuel vf i = some r := by
  intro fuel
  induction fuel with
  | zero =>
    intro vf i _ _ hf
    omega
  | succ n ih =>
    intro vf i hi hmax hf
    have hw : wrapInt (i + 1) = i + 1 :=
      wrapInt_of_range (i + 1) (by unfold INT_MIN; omega) (by unfold INT_MAX at hmax ⊢; omega)
    rw [readVMemDirLoop]
    simp only [hw]
    by_cases hlt : i + 1 < (ts.length : Int)
    · rw [if_pos hlt, if_neg (by omega)]
      have hidx : (i + 1).toNat < ts.length := by omega
      rw [List.getElem?_eq_getElem hidx]
      simp only
      by_cases hh : specialFlagsHide p (ts[(i + 1).toNat]).flags = true
      · rw [if_pos hh]
        exact ih _ (i + 1) (by omega) (by omega) (by omega)
      · rw [if_neg hh]
        exact ⟨_, rfl⟩
    · rw [if_neg hlt]
      exact ⟨_, rfl⟩

theorem catalog_length (p : Platform) : (vMemFileTemplates p).length = 15 := rfl

theorem catalog_length_int (p : Platform) : ((vMemFileTemplates p).length : Int) = 15 := rfl

/-- Calls made from a cursor at or past the last entry return `false` and leave the
output record alone, as long as the cursor stays below `INT_MAX`. -/
theorem callsVMemDir_past_end :
    ∀ (qs : List Platform) (vf : VirtualFile) (i : Int), 15 ≤ i + 1 →
      i + (qs.length : Int) ≤ INT_MAX →
      ∃ rs, callsVMemDir qs vf ⟨i⟩ = some rs ∧ rs.length = qs.length ∧
        ∀ r ∈ rs, r.1 = false ∧ r.2.1 = vf := by
  intro qs
  induction qs with
  | nil =>
    intro vf i _ _
    exact ⟨[], rfl, rfl, by simp⟩
  | cons q qs ih =>
    intro vf i hi hmax
    simp only [List.length_cons, Nat.cast_add, Nat.cast_one] at hmax
    obtain ⟨rs, h1, h2, h3⟩ := ih vf (i + 1) (by omega) (by omega)
    have hcall : ReadVMemDir q vf ⟨i⟩ = some (false, vf, ⟨i + 1⟩) :=
      readVMemDirOver_past_end q (vMemFileTemplates q) vf i
        (by rw [catalog_length_int]; omega) (by omega)
    refine ⟨(false, vf, ⟨i + 1⟩) :: rs, ?_, by simp [h2], ?_⟩
    · rw [callsVMemDir, hcall]
      simp only [h1, Option.map_some']
    · intro r hr
      rcases List.mem_cons.mp hr with rfl | hr
      · exact ⟨rfl, rfl⟩
      · exact h3 r hr

/-- C6 (as amended): once `ReadVMemDir` has returned `false`, any further sequence of
calls on the resulting cursor, each under hardware facts of its own, that keeps the
cursor index within `INT_MAX` (index after the `false` return plus number of calls at
most `INT_MAX`) completes with `false` at every call and never changes the output
record. -/
theorem ReadVMemDir_exhausted_terminal (p : Platform) (vfile vf1 : VirtualFile)
    (vdir vd1 : VirtualDir) (h : ReadVMemDir p vfile vdir = some (false, vf1, vd1))
    (qs : List Platform) (hq : vd1.index + (qs.length : Int) ≤ INT_MAX) :
    ∃ rs, callsVMemDir qs vf1 vd1 = some rs ∧ rs.length = qs.length ∧
      ∀ r ∈ rs, r.1 = false ∧ r.2.1 = vf1 := by
  have hend : (15 : Int) ≤ vd1.index := by
    have := readVMemDirLoop_false_index p (vMemFileTemplates p) _ vfile vdir.index _ h rfl
    rw [catalog_length_int] at this
    exact this
  exact callsVMemDir_past_end qs vf1 vd1.index (by omega) hq

/-- C6, witness: the cursor on the last entry; the next call returns `false`, and so
do three more calls, one of them on an old locked console. -/
theorem ReadVMemDir_exhausted_terminal_witness :
    ReadVMemDir testPlatform itcmFile ⟨14⟩ = some (false, itcmFile, ⟨15⟩) ∧
    (15 : Int) + ([testPlatform, oldLockedPlatform, testPlatform].length : Int) ≤ INT_MAX ∧
    ∃ rs, callsVMemDir [testPlatform, oldLockedPlatform, testPlatform] itcmFile ⟨15⟩ = some rs ∧
      rs.length = [testPlatform, oldLockedPlatform, testPlatform].length ∧
      ∀ r ∈ rs, r.1 = false ∧ r.2.1 = itcmFile :=
  ⟨by decide, by decide,
   ReadVMemDir_exhausted_terminal testPlatform itcmFile itcmFile ⟨14⟩ ⟨15⟩ (by decide)
     [testPlatform, oldLockedPlatform, testPlatform] (by decide)⟩

/-- C6, counterexample: from the cursor `INT_MAX - 1` a call returns `false` and leaves
the cursor at `INT_MAX`; the next call increments an `int` at `INT_MAX`, which gives
`INT_MIN`, below `n_templates`: it does not return `false` but goes on to read the
table at a negative index. -/
theorem ReadVMemDir_exhausted_overflow_counterexample :
    ReadVMemDir testPlatform itcmFile ⟨INT_MAX - 1⟩ = some (false, itcmFile, ⟨INT_MAX⟩) ∧
    wrapInt (INT_MAX + 1) = INT_MIN ∧
    INT_MIN < ((vMemFileTemplates testPlatform).length : Int) ∧
    ReadVMemDir testPlatform itcmFile ⟨INT_MAX⟩ = none ∧
    callsVMemDir [testPlatform, testPlatform] itcmFile ⟨INT_MAX - 1⟩ = none := by
  refine ⟨by decide, by decide, by decide, by decide, by decide⟩

/-- C7 (as amended): for a cursor index that is an `int`, a call of `ReadVMemDir` that
completes leaves the index strictly greater than it found it, and every call from an
index of -1 or more and below `INT_MAX` completes; hence along any completed sequence
of calls on one cursor the indexes, starting with the initial one, are strictly
increasing and none occurs twice. -/
theorem ReadVMemDir_cursor_increases (p : Platform) (vfile : VirtualFile) (vdir : VirtualDir)
    (hlo : INT_MIN ≤ vdir.index) (hhi : vdir.index ≤ INT_MAX) :
    (∀ r, ReadVMemDir p vfile vdir = some r → vdir.index < r.2.2.index) ∧
    (-1 ≤ vdir.index → vdir.index < INT_MAX → ∃ r, ReadVMemDir p vfile vdir = some r) ∧
    (∀ (qs : List Platform) rs, callsVMemDir qs vfile vdir = some rs →
      List.Pairwise (· < ·) (vdir.index :: rs.map (fun r => r.2.2.index))) := by
  refine ⟨fun r h => (readVMemDirLoop_result p _ _ vfile vdir.index r hlo hhi h).1,
    fun hi hmax => readVMemDirLoop_total p _ (by rw [catalog_length_int]; decide) _ vfile
      vdir.index hi hmax le_rfl, ?_⟩
  intro qs
  induction qs generalizing vfile vdir with
  | nil =>
    intro rs h
    simp only [callsVMemDir, Option.some.injEq] at h
    subst h
    simp
  | cons q qs ih =>
    intro rs h
    rw [callsVMemDir] at h
    split at h
    · exact Option.noConfusion h
    · rename_i r hr
      cases hrest : callsVMemDir qs r.2.1 r.2.2 with
      | none => simp [hrest] at h
      | some rs1 =>
        simp only [hrest, Option.map_some', Option.some.injEq] at h
        subst h
        have hres := readVMemDirLoop_result q _ _ vfile vdir.index r hlo hhi hr
        have hstep : vdir.index < r.2.2.index := hres.1
        have htail := ih r.2.1 r.2.2 (le_of_lt (lt_of_le_of_lt hlo hstep)) hres.2.1 rs1 hrest
        simp only [List.map_cons]
        refine List.pairwise_cons.mpr ⟨?_, htail⟩
        intro b hb
        rcases List.mem_cons.mp hb with rfl | hb
        · exact hstep
        · exact lt_trans hstep ((List.pairwise_cons.mp htail).1 b hb)

/-- C7, witness: from the reset cursor -1 the first call completes, and moves the
cursor forward. -/
theorem ReadVMemDir_cursor_increases_witness :
    INT_MIN ≤ (⟨-1⟩ : VirtualDir).index ∧ (⟨-1⟩ : VirtualDir).index < INT_MAX ∧
    (∃ r, ReadVMemDir testPlatform itcmFile ⟨-1⟩ = some r) ∧
    (∀ r, ReadVMemDir testPlatform itcmFile ⟨-1⟩ = some r → (-1 : Int) < r.2.2.index) :=
  ⟨by decide, by decide,
   (ReadVMemDir_cursor_increases testPlatform itcmFile ⟨-1⟩ (by decide) (by decide)).2.1
     (by decide) (by decide),
   (ReadVMemDir_cursor_increases testPlatform itcmFile ⟨-1⟩ (by decide) (by decide)).1⟩

/-- C7, counterexample: at the cursor index `INT_MAX` the increment gives `INT_MIN`,
which is smaller, not greater; the call does not complete with a greater index (it
reads the table at a negative index). -/
theorem ReadVMemDir_cursor_overflow_counterexample :
    wrapInt ((⟨INT_MAX⟩ : VirtualDir).index + 1) < (⟨INT_MAX⟩ : VirtualDir).index ∧
    ¬ ∃ r, ReadVMemDir testPlatform itcmFile ⟨INT_MAX⟩ = some r ∧
      (⟨INT_MAX⟩ : VirtualDir).index < r.2.2.index := by
  refine ⟨by decide, ?_⟩
  rintro ⟨r, hr, _⟩
  have hnone : ReadVMemDir testPlatform itcmFile ⟨INT_MAX⟩ = none := by decide
  rw [hnone] at hr
  exact Option.noConfusion hr

/-! ## The register-bus reader -/

/-- The buffer after the loop: positions `x .. x + remaining - 1` hold the bus bytes of
the registers `(u8) (offset + position)`, the others are as before. -/
theorem mcuReadLoop_buffer (p : Platform) (device offset : Nat) :
    ∀ (remaining x : Nat) (dest : Buffer) (trace : List Event) (i : Nat),
      (mcuReadLoop p device offset remaining x dest trace).1 i =
        if x ≤ i ∧ i < x + remaining then
          p.i2cReadRegister device ((offset + i) % 2 ^ 64 % 2 ^ 8)
        else dest i := by
  intro remaining
  induction remaining with
  | zero =>
    intro x dest trace i
    rw [mcuReadLoop, if_neg (by omega)]
  | succ n ih =>
    intro x dest trace i
    rw [mcuReadLoop, ih]
    by_cases h1 : x + 1 ≤ i ∧ i < x + 1 + n
    · rw [if_pos h1, if_pos (by omega)]
    · rw [if_neg h1]
      by_cases h2 : i = x
      · rw [if_pos h2, if_pos (by omega), h2]
      · rw [if_neg h2, if_neg (by omega)]

/-- The trace after the loop: one bus read per position, in increasing order. -/
theorem mcuReadLoop_trace (p : Platform) (device offset : Nat) :
    ∀ (remaining x : Nat) (dest : Buffer) (trace : List Event),
      (mcuReadLoop p device offset remaining x dest trace).2 =
        trace ++ (List.range' x remaining).map
          (fun k => Event.i2cRead device ((offset + k) % 2 ^ 64 % 2 ^ 8)) := by
  intro remaining
  induction remaining with
  | zero =>
    intro x dest trace
    simp [mcuReadLoop]
  | succ n ih =>
    intro x dest trace
    rw [mcuReadLoop, ih, List.range'_succ, List.map_cons, List.append_assoc]
    rfl

/-- C8: for a callback descriptor routed to `ReadWriteVMemMCURegisters` with a size
of at most 256 and `offset + count <= size`, a read returns 0, puts into
`buffer[x]`, for every `x < count`, the bus byte of device `(u8) keyslot` and
register `offset + x` (the register number itself, below 256), leaves the rest of
the buffer, the memory and the cipher engine alone, and issues after the handler
call exactly the `count` bus reads of the registers `offset`, `offset + 1`, ... in
this order. -/
theorem ReadVMemFile_mcu_registers (p : Platform) (w : World) (vfile : VirtualFile)
    (buffer : Buffer) (offset count : Nat)
    (hcb : vfile.flags &&& VFLAG_CALLBACK ≠ 0)
    (hid : vfile.offset = VMEM_CALLBACK_MCU_REGISTERS)
    (hsize : vfile.size ≤ 256) (hr : offset + count ≤ vfile.size) :
    ∃ out, ReadVMemFile p w vfile buffer offset count = some out ∧ out.ret = 0 ∧
      (∀ x, x < count →
        out.buffer x = p.i2cReadRegister (vfile.keyslot % 2 ^ 8) (offset + x)) ∧
      (∀ x, count ≤ x → out.buffer x = buffer x) ∧
      out.world.trace = w.trace ++ [Event.callback VMEM_CALLBACK_MCU_REGISTERS false] ++
        (List.range count).map (fun x => Event.i2cRead (vfile.keyslot % 2 ^ 8) (offset + x)) ∧
      out.world.mem = w.mem ∧ out.world.aes = w.aes := by
  have hacc := range_tests_accept vfile.size (by omega) hr
  have hreg : ∀ x, x < count → (offset + x) % 2 ^ 64 % 2 ^ 8 = offset + x := by
    intro x hx
    rw [Nat.mod_eq_of_lt (by omega), Nat.mod_eq_of_lt (by omega)]
  refine ⟨ReadWriteVMemMCURegisters p
      { w with trace := w.trace ++ [Event.callback vfile.offset false] }
      vfile false buffer offset count,
    by simp only [ReadVMemFile, hcb, bne_iff_ne, ne_eq, not_false_eq_true,
      if_true, hid, callbacks_at_mcu], ?_⟩
  unfold ReadWriteVMemMCURegisters
  simp only [Bool.false_eq_true, if_false]
  rw [if_neg hacc.1, if_neg (by simpa using hacc.2)]
  refine ⟨rfl, ?_, ?_, ?_, rfl, rfl⟩
  · intro x hx
    simp only
    rw [mcuReadLoop_buffer, if_pos (by omega), hreg x hx]
  · intro x hx
    simp only
    rw [mcuReadLoop_buffer, if_neg (by omega)]
  · simp only
    rw [mcuReadLoop_trace, hid, List.range_eq_range']
    congr 1
    apply List.map_congr_left
    intro x hx
    rw [hreg x (by simpa using (List.mem_range'_1.mp hx).2)]

/-- C8, witness: registers 250 to 255 of device 3 through the entry
`mcu_3ds_regs.bin`. -/
theorem ReadVMemFile_mcu_registers_witness :
    ∃ out, ReadVMemFile testPlatform testWorld
        ⟨"mcu_3ds_regs.bin", VMEM_CALLBACK_MCU_REGISTERS, 0x100, 3,
          VFLAG_CALLBACK ||| VFLAG_READ_ONLY⟩ zeroBuffer 250 6 = some out ∧ out.ret = 0 ∧
      (∀ x, x < 6 → out.buffer x = testPlatform.i2cReadRegister (3 % 2 ^ 8) (250 + x)) ∧
      (∀ x, 6 ≤ x → out.buffer x = zeroBuffer x) ∧
      out.world.trace = testWorld.trace ++ [Event.callback VMEM_CALLBACK_MCU_REGISTERS false] ++
        (List.range 6).map (fun x => Event.i2cRead (3 % 2 ^ 8) (250 + x)) ∧
      out.world.mem = testWorld.mem ∧ out.world.aes = testWorld.aes :=
  ReadVMemFile_mcu_registers testPlatform testWorld
    ⟨"mcu_3ds_regs.bin", VMEM_CALLBACK_MCU_REGISTERS, 0x100, 3,
      VFLAG_CALLBACK ||| VFLAG_READ_ONLY⟩ zeroBuffer 250 6
    (by decide) rfl (by decide) (by decide)

/-! ## The decrypting reader -/

/-- C9: with `sizeof(Otp)` = 0x100, let `key` be the 16 memory bytes at
`BOOT9_POS + 0xD6E0` (`+ 0xD700` on a devkit), `iv` the 16 bytes after them, `blob`
the 0x100 bytes at `OTP_POS`, and `plaintext` the CBC decryption of `blob` under
`key` and `iv`.  For a callback descriptor routed to `ReadWriteVMemOTPDecrypted` and
`offset + count <= 0x100`, a read returns 0 and `buffer[i]` is byte `offset + i` of
`plaintext` for every `i < count`, the rest of the buffer and the memory being as
before; the hardware operations are: load `key` into keyslot 0x11, select it, one
CBC decryption of the 16 blocks of `blob`.  A read of the whole 0x100 bytes puts
`plaintext` itself into the buffer. -/
theorem ReadVMemFile_otp_decrypted (p : Platform) (hp : p.sizeof_Otp = 0x100) (w : World)
    (vfile : VirtualFile) (buffer : Buffer) (offset count : Nat)
    (hcb : vfile.flags &&& VFLAG_CALLBACK ≠ 0)
    (hid : vfile.offset = VMEM_CALLBACK_OTP_DECRYPTED)
    (hr : offset + count ≤ 0x100)
    (key iv blob plaintext : List Nat)
    (hkey : readBytes w.mem (BOOT9_POS + (if p.IS_DEVKIT then 0xD700 else 0xD6E0)) 0x10 = key)
    (hiv : readBytes w.mem (BOOT9_POS + (if p.IS_DEVKIT then 0xD700 else 0xD6E0) + 0x10) 0x10
      = iv)
    (hblob : readBytes w.mem OTP_POS 0x100 = blob)
    (hpt : p.cbc_decrypt key blob 0x10 p.AES_CNT_TITLEKEY_DECRYPT_MODE iv = plaintext) :
    ∃ out, ReadVMemFile p w vfile buffer offset count = some out ∧ out.ret = 0 ∧
      (∀ i, i < count → out.buffer i = plaintext.getD (offset + i) 0) ∧
      (∀ i, count ≤ i → out.buffer i = buffer i) ∧
      out.world.mem = w.mem ∧
      out.world.trace = w.trace ++
        [Event.callback VMEM_CALLBACK_OTP_DECRYPTED false, Event.setupAesKey 0x11 key,
         Event.useAesKey 0x11,
         Event.cbcDecrypt key blob 0x10 p.AES_CNT_TITLEKEY_DECRYPT_MODE iv] ∧
      (offset = 0 → count = 0x100 → plaintext.length = 0x100 →
        (List.range 0x100).map out.buffer = plaintext) := by
  have hle : offset + count ≤ p.sizeof_Otp := by omega
  have hacc := range_tests_accept p.sizeof_Otp (by omega) hle
  have hc : count % 2 ^ 32 = count := Nat.mod_eq_of_lt (by omega)
  refine ⟨ReadWriteVMemOTPDecrypted p
      { w with trace := w.trace ++ [Event.callback vfile.offset false] }
      vfile false buffer offset count,
    by simp only [ReadVMemFile, hcb, bne_iff_ne, ne_eq, not_false_eq_true,
      if_true, hid, callbacks_at_otp], ?_⟩
  unfold ReadWriteVMemOTPDecrypted
  simp only [Bool.false_eq_true, if_false]
  rw [if_neg hacc.1, if_neg (by simpa using hacc.2)]
  simp only [setup_aeskey, use_aeskey, OTP_KEY, OTP_IV, hp, if_true, hid]
  have hbuf : ∀ i, i < count → memcpyFromLocal buffer plaintext offset count i
      = plaintext.getD (offset + i) 0 := by
    intro i hi
    show (if i < size_t count then _ else _) = _
    rw [size_t, hc, if_pos hi]
  have e1 : 256 / 16 * 16 = 256 := by norm_num
  have e2 : 256 / 16 = 16 := by norm_num
  rw [e1, e2, hkey, hiv, hblob, hpt]
  refine ⟨trivial, hbuf, ?_, trivial, by simp, ?_⟩
  · intro i hi
    show (if i < size_t count then _ else _) = _
    rw [size_t, hc, if_neg (by omega)]
  · intro h0 hcount hlen
    apply List.ext_getElem (by simp [hlen])
    intro n h1 h2
    have hn : n < count := by
      rw [hcount]
      simpa using h1
    rw [List.getElem_map, List.getElem_range, hbuf n hn, h0, Nat.zero_add,
      List.getD_eq_getElem _ _ h2]

/-- C9, witness: a retail console whose memory byte at address `a` is `a % 251`, the
entry `otp_dec.mem` read in full: the buffer receives the toy decryption of the
0x100 bytes at `OTP_POS` under the first key byte and the first IV byte. -/
theorem ReadVMemFile_otp_decrypted_witness :
    ∃ out, ReadVMemFile testPlatform otpWorld otpDecFile zeroBuffer 0 0x100 = some out ∧
      out.ret = 0 ∧
      (List.range 0x100).map out.buffer =
        (readBytes otpWorld.mem OTP_POS 0x100).map
          (fun b => b ^^^ (0x0808D6E0 % 251) ^^^ (0x0808D6F0 % 251)) := by
  obtain ⟨out, h1, h2, _, _, _, _, h7⟩ :=
    ReadVMemFile_otp_decrypted testPlatform rfl otpWorld otpDecFile zeroBuffer 0 0x100
      (by decide) rfl (by decide)
      (readBytes otpWorld.mem 0x0808D6E0 0x10) (readBytes otpWorld.mem 0x0808D6F0 0x10)
      (readBytes otpWorld.mem OTP_POS 0x100)
      ((readBytes otpWorld.mem OTP_POS 0x100).map
        (fun b => b ^^^ (0x0808D6E0 % 251) ^^^ (0x0808D6F0 % 251)))
      rfl rfl rfl rfl
  exact ⟨out, h1, h2, h7 rfl rfl (by simp [readBytes])⟩

/-- C10 (as amended): the decrypting reader checks the range against `sizeof(Otp)`,
not against the size field of the descriptor, which it never looks at.  For every
descriptor in read mode and 64-bit `offset`, `count` with `offset + count` past
`sizeof(Otp)` or past 64 bits it returns 1 with buffer and world untouched (no key
load, no decryption, no copy); and its result is the same for any two descriptors. -/
theorem ReadWriteVMemOTPDecrypted_range_check (p : Platform) (w : World)
    (vfile : VirtualFile) (buffer : Buffer) (offset count : Nat)
    (ho : offset < 2 ^ 64) (hc : count < 2 ^ 64) :
    ((p.sizeof_Otp < offset + count ∨ 2 ^ 64 ≤ offset + count) →
      ReadWriteVMemOTPDecrypted p w vfile false buffer offset count = ⟨1, buffer, w⟩) ∧
    (∀ other : VirtualFile,
      ReadWriteVMemOTPDecrypted p w other false buffer offset count =
        ReadWriteVMemOTPDecrypted p w vfile false buffer offset count) :=
  ⟨fun hr => otp_rejects p w vfile buffer (range_tests_reject ho hc hr), fun _ => rfl⟩

/-- C10, witness: 0x20 bytes asked at offset 0xF0 of the 0x100 bytes. -/
theorem ReadWriteVMemOTPDecrypted_range_check_witness :
    (0xF0 : Nat) < 2 ^ 64 ∧ (0x20 : Nat) < 2 ^ 64 ∧
    testPlatform.sizeof_Otp < 0xF0 + 0x20 ∧
    ReadWriteVMemOTPDecrypted testPlatform otpWorld otpDecFile false zeroBuffer 0xF0 0x20 =
      ⟨1, zeroBuffer, otpWorld⟩ :=
  ⟨by decide, by decide, by decide,
   (ReadWriteVMemOTPDecrypted_range_check testPlatform otpWorld otpDecFile zeroBuffer 0xF0 0x20
      (by decide) (by decide)).1 (Or.inl (by decide))⟩

/-- C10, counterexample: a descriptor whose size field is 0x10, asked for 0x20 bytes
at offset 0: the handler returns 0, runs the three cipher operations and fills
0x20 bytes of the buffer. -/
theorem ReadWriteVMemOTPDecrypted_size_field_counterexample :
    shortOtpFile.size < 0 + 0x20 ∧
    (ReadWriteVMemOTPDecrypted testPlatform otpWorld shortOtpFile false zeroBuffer 0 0x20).ret
      = 0 ∧
    (ReadWriteVMemOTPDecrypted testPlatform otpWorld shortOtpFile false zeroBuffer 0
      0x20).world.trace.length = 3 ∧
    (ReadWriteVMemOTPDecrypted testPlatform otpWorld shortOtpFile false zeroBuffer 0 0x20).buffer
      0x1F ≠ zeroBuffer 0x1F := by
  refine ⟨by decide, by decide, by decide, by decide⟩

/-! ## Writes -/

/-- C11: called with `writing = true`, `ReadWriteVMemOTPDecrypted` and
`ReadWriteVMemMCURegisters` return 1 for every descriptor, buffer, offset and count,
and hand back the buffer and the whole world (memory, cipher engine, trace of bus and
cipher operations) as they were. -/
theorem callbacks_reject_writing (p : Platform) (w : World) (vfile : VirtualFile)
    (buffer : Buffer) (offset count : Nat) :
    ReadWriteVMemOTPDecrypted p w vfile true buffer offset count = ⟨1, buffer, w⟩ ∧
    ReadWriteVMemMCURegisters p w vfile true buffer offset count = ⟨1, buffer, w⟩ := by
  constructor
  · unfold ReadWriteVMemOTPDecrypted
    rw [if_pos rfl]
  · unfold ReadWriteVMemMCURegisters
    rw [if_pos rfl]

/-- C12 (as amended): for a descriptor with neither `VFLAG_READ_ONLY` nor
`VFLAG_CALLBACK` whose region lies in the 32-bit address space
(`offset field + size <= 2^32`, `size < 2^32`) and `offset + count <= size`,
`WriteVMemFile` returns 0; afterwards the memory byte at `offset field + offset + i`
is `buffer[i]` for every `i < count`, every byte outside that range is unchanged, and
buffer, cipher engine and trace are as before. -/
theorem WriteVMemFile_direct_in_range (p : Platform) (w : World) (vfile : VirtualFile)
    (buffer : Buffer) (offset count : Nat)
    (hro : vfile.flags &&& VFLAG_READ_ONLY = 0) (hd : vfile.flags &&& VFLAG_CALLBACK = 0)
    (hfit : vfile.offset + vfile.size ≤ 2 ^ 32) (hsz : vfile.size < 2 ^ 32)
    (hr : offset + count ≤ vfile.size) :
    ∃ out, WriteVMemFile p w vfile buffer offset count = some out ∧ out.ret = 0 ∧
      (∀ i, i < count → out.world.mem (vfile.offset + offset + i) = buffer i) ∧
      (∀ a, a < vfile.offset + offset ∨ vfile.offset + offset + count ≤ a →
        out.world.mem a = w.mem a) ∧
      out.buffer = buffer ∧ out.world.aes = w.aes ∧ out.world.trace = w.trace := by
  have hc : count % 2 ^ 32 = count := Nat.mod_eq_of_lt (by omega)
  refine ⟨⟨0, buffer,
      ⟨memcpyToMem w.mem ((vfile.offset + offset) % 2 ^ 32) buffer count, w.aes, w.trace⟩⟩,
    by simp [WriteVMemFile, hro, hd], rfl, ?_, ?_, rfl, rfl, rfl⟩
  · intro i hi
    have hf : (vfile.offset + offset) % 2 ^ 32 = vfile.offset + offset :=
      Nat.mod_eq_of_lt (by omega)
    show (if _ ∧ _ < _ + size_t count then _ else _) = _
    rw [size_t, hc, hf, if_pos (by omega)]
    congr 1
    omega
  · intro a ha
    show (if _ ∧ _ < _ + size_t count then _ else _) = _
    rw [size_t, hc]
    by_cases h0 : count = 0
    · rw [if_neg (by omega)]
    · have hf : (vfile.offset + offset) % 2 ^ 32 = vfile.offset + offset :=
        Nat.mod_eq_of_lt (by omega)
      rw [hf, if_neg (by omega)]

/-- C12, witness: the first 4 bytes of `itcm.mem`. -/
theorem WriteVMemFile_direct_in_range_witness :
    itcmFile.offset + itcmFile.size ≤ 2 ^ 32 ∧ 0 + 4 ≤ itcmFile.size ∧
    ∃ out, WriteVMemFile testPlatform testWorld itcmFile zeroBuffer 0 4 = some out ∧
      out.ret = 0 ∧
      (∀ i, i < 4 → out.world.mem (itcmFile.offset + 0 + i) = zeroBuffer i) ∧
      (∀ a, a < itcmFile.offset + 0 ∨ itcmFile.offset + 0 + 4 ≤ a →
        out.world.mem a = testWorld.mem a) ∧
      out.buffer = zeroBuffer ∧ out.world.aes = testWorld.aes ∧
      out.world.trace = testWorld.trace :=
  ⟨by decide, by decide,
   WriteVMemFile_direct_in_range testPlatform testWorld itcmFile zeroBuffer 0 4
     (by decide) (by decide) (by decide) (by decide) (by decide)⟩

/-- C12, counterexample: a writable direct descriptor at 0xFFFFFFF0 of size 0x100,
written with 1 byte at offset 0x20 (in range): the call returns 0, but the 32-bit
address wraps to 0x10, so the byte at 0x10, outside the range, changes and the byte
at `offset field + offset` = 0x100000010 does not become `buffer[0]`. -/
theorem WriteVMemFile_direct_wrap_counterexample :
    highFile.flags &&& VFLAG_READ_ONLY = 0 ∧ highFile.flags &&& VFLAG_CALLBACK = 0 ∧
    0x20 + 1 ≤ highFile.size ∧
    (WriteVMemFile testPlatform testWorld highFile zeroBuffer 0x20 1).map
      (fun o => (o.ret, o.world.mem 0x10, o.world.mem (highFile.offset + 0x20 + 0))) =
      some (0, 0, 0xAA) ∧
    testWorld.mem 0x10 = 0xAA ∧ zeroBuffer 0 = 0 ∧
    (0x10 < highFile.offset + 0x20 ∨ highFile.offset + 0x20 + 1 ≤ 0x10) := by
  refine ⟨by decide, by decide, by decide, by rfl, by decide, by decide, by decide⟩

/-- A write to a read-only descriptor returns 1 at once. -/
theorem WriteVMemFile_read_only_aux (p : Platform) (w : World) (vfile : VirtualFile)
    (buffer : Buffer) (offset count : Nat) (hro : vfile.flags &&& VFLAG_READ_ONLY ≠ 0) :
    WriteVMemFile p w vfile buffer offset count = some ⟨1, buffer, w⟩ := by
  simp [WriteVMemFile, hro]

/-! ## Shape of the catalog -/

/-- The flags of a catalog entry: it is direct, or it is a read-only callback entry
naming one of the two handlers. -/
theorem catalog_entry_flags (p : Platform) (vfile : VirtualFile)
    (hv : vfile ∈ vMemFileTemplates p) :
    vfile.flags &&& VFLAG_CALLBACK = 0 ∨
    (vfile.flags &&& VFLAG_CALLBACK ≠ 0 ∧ vfile.flags &&& VFLAG_READ_ONLY ≠ 0 ∧
      (vfile.offset = VMEM_CALLBACK_OTP_DECRYPTED ∨
        vfile.offset = VMEM_CALLBACK_MCU_REGISTERS)) := by
  simp only [vMemFileTemplates, List.mem_cons, List.mem_singleton, List.not_mem_nil,
    or_false] at hv
  rcases hv with h | h | h | h | h | h | h | h | h | h | h | h | h | h | h <;> subst h
  all_goals first
    | exact Or.inl (by dsimp only; decide)
    | exact Or.inr ⟨by dsimp only; decide, by dsimp only; decide, by dsimp only; decide⟩

/-- A direct catalog entry ends strictly below 2^32 (the type `Otp` being 0x100
bytes). -/
theorem catalog_direct_below (p : Platform) (hp : p.sizeof_Otp = 0x100) (vfile : VirtualFile)
    (hv : vfile ∈ vMemFileTemplates p) (hd : vfile.flags &&& VFLAG_CALLBACK = 0) :
    vfile.offset + vfile.size < 2 ^ 32 := by
  simp only [vMemFileTemplates, List.mem_cons, List.mem_singleton, List.not_mem_nil,
    or_false, hp] at hv
  rcases hv with h | h | h | h | h | h | h | h | h | h | h | h | h | h | h <;> subst h
  all_goals first
    | exact (by decide)
    | exact absurd hd (by dsimp only; decide)

/-- C13: the dispatch table has `VMEM_NUM_CALLBACKS` = 2 entries; every catalog
descriptor with `VFLAG_CALLBACK` has one of the two handler ids in its offset field,
below `VMEM_NUM_CALLBACKS`; hence `ReadVMemFile` and `WriteVMemFile` never index the
table out of bounds on a catalog entry; and the names of the catalog are pairwise
distinct. -/
theorem catalog_well_formed (p : Platform) :
    vMemCallbacks.length = VMEM_NUM_CALLBACKS ∧ VMEM_NUM_CALLBACKS = 2 ∧
    (∀ t ∈ vMemFileTemplates p, t.flags &&& VFLAG_CALLBACK ≠ 0 →
      (t.offset = VMEM_CALLBACK_OTP_DECRYPTED ∨ t.offset = VMEM_CALLBACK_MCU_REGISTERS) ∧
      t.offset < VMEM_NUM_CALLBACKS) ∧
    (∀ t ∈ vMemFileTemplates p, ∀ (w : World) (buffer : Buffer) (offset count : Nat),
      (∃ out, ReadVMemFile p w t buffer offset count = some out) ∧
      (∃ out, WriteVMemFile p w t buffer offset count = some out)) ∧
    ((vMemFileTemplates p).map (fun t => t.name)).Nodup := by
  refine ⟨rfl, rfl, ?_, ?_, ?_⟩
  · intro t ht hcb
    rcases catalog_entry_flags p t ht with hd | ⟨_, _, hid⟩
    · exact absurd hd hcb
    · refine ⟨hid, ?_⟩
      rcases hid with h | h <;> rw [h] <;> decide
  · intro t ht w buffer offset count
    rcases catalog_entry_flags p t ht with hd | ⟨hcb, hro, hid⟩
    · constructor
      · exact ⟨_, by simp only [ReadVMemFile, hd, bne_self_eq_false, Bool.false_eq_true,
          if_false]; rfl⟩
      · by_cases hro : t.flags &&& VFLAG_READ_ONLY = 0
        · exact ⟨_, by simp only [WriteVMemFile, hro, hd, bne_self_eq_false,
            Bool.false_eq_true, if_false]; rfl⟩
        · exact ⟨_, WriteVMemFile_read_only_aux p w t buffer offset count hro⟩
    · constructor
      · rcases hid with h | h
        · exact ⟨_, by simp only [ReadVMemFile, hcb, bne_iff_ne, ne_eq, not_false_eq_true,
            if_true, h, callbacks_at_otp]; rfl⟩
        · exact ⟨_, by simp only [ReadVMemFile, hcb, bne_iff_ne, ne_eq, not_false_eq_true,
            if_true, h, callbacks_at_mcu]; rfl⟩
      · exact ⟨_, WriteVMemFile_read_only_aux p w t buffer offset count hro⟩
  · simp only [vMemFileTemplates, List.map_cons, List.map_nil]
    decide

/-- C13, witness: the callback entry `otp_dec.mem`. -/
theorem catalog_well_formed_witness :
    otpDecFile ∈ vMemFileTemplates testPlatform ∧ otpDecFile.flags &&& VFLAG_CALLBACK ≠ 0 ∧
    ((otpDecFile.offset = VMEM_CALLBACK_OTP_DECRYPTED ∨
        otpDecFile.offset = VMEM_CALLBACK_MCU_REGISTERS) ∧
      otpDecFile.offset < VMEM_NUM_CALLBACKS) :=
  ⟨by simp [vMemFileTemplates, otpDecFile], by decide,
   (catalog_well_formed testPlatform).2.2.1 otpDecFile
     (by simp [vMemFileTemplates, otpDecFile]) (by decide)⟩

/-- C14: for 64-bit `offset` and `count` the guard `offset + count < offset`, computed
modulo 2^64, is true exactly when the mathematical sum reaches 2^64; so a read
through `ReadWriteVMemMCURegisters` of a descriptor with a 64-bit size returns 0
exactly when the mathematical sum `offset + count` is at most that size. -/
theorem overflow_guard_exact (p : Platform) (w : World) (vfile : VirtualFile)
    (buffer : Buffer) (offset count : Nat) (ho : offset < 2 ^ 64) (hc : count < 2 ^ 64)
    (hs : vfile.size < 2 ^ 64) :
    ((offset + count) % 2 ^ 64 < offset ↔ 2 ^ 64 ≤ offset + count) ∧
    ((ReadWriteVMemMCURegisters p w vfile false buffer offset count).ret = 0 ↔
      offset + count ≤ vfile.size) := by
  constructor
  · constructor
    · intro h
      by_contra hlt
      rw [wrapped_sum_eq (by omega)] at h
      omega
    · exact wrapped_sum_lt_of_overflow ho hc
  · constructor
    · intro h
      by_contra hgt
      rw [mcu_rejects p w vfile buffer
        (range_tests_reject ho hc (Or.inl (by omega)))] at h
      exact absurd h (by dsimp only; decide)
    · intro h
      have hacc := range_tests_accept vfile.size hs h
      exact mcu_accepts_ret p w vfile buffer hacc.1 hacc.2

/-- C14, witness: the exact fit 0x80 + 0x80 in a descriptor of size 0x100, and a sum
that wraps to 0 (offset 2^64 - 1, count 1). -/
theorem overflow_guard_exact_witness :
    ((ReadWriteVMemMCURegisters testPlatform testWorld
        ⟨"mcu", VMEM_CALLBACK_MCU_REGISTERS, 0x100, 3, VFLAG_CALLBACK⟩ false zeroBuffer
        0x80 0x80).ret = 0 ↔ 0x80 + 0x80 ≤ 0x100) ∧
    (((2 ^ 64 - 1) + 1) % 2 ^ 64 < 2 ^ 64 - 1 ↔ 2 ^ 64 ≤ (2 ^ 64 - 1) + 1) ∧
    ((ReadWriteVMemMCURegisters testPlatform testWorld
        ⟨"mcu", VMEM_CALLBACK_MCU_REGISTERS, 0x100, 3, VFLAG_CALLBACK⟩ false zeroBuffer
        (2 ^ 64 - 1) 1).ret = 0 ↔ (2 ^ 64 - 1) + 1 ≤ 0x100) :=
  ⟨(overflow_guard_exact testPlatform testWorld
      ⟨"mcu", VMEM_CALLBACK_MCU_REGISTERS, 0x100, 3, VFLAG_CALLBACK⟩ zeroBuffer 0x80 0x80
      (by decide) (by decide) (by decide)).2,
   (overflow_guard_exact testPlatform testWorld
      ⟨"mcu", VMEM_CALLBACK_MCU_REGISTERS, 0x100, 3, VFLAG_CALLBACK⟩ zeroBuffer (2 ^ 64 - 1) 1
      (by decide) (by decide) (by decide)).1,
   (overflow_guard_exact testPlatform testWorld
      ⟨"mcu", VMEM_CALLBACK_MCU_REGISTERS, 0x100, 3, VFLAG_CALLBACK⟩ zeroBuffer (2 ^ 64 - 1) 1
      (by decide) (by decide) (by decide)).2⟩

/-- C15 (as amended): from a cursor index of -1 or more and below `INT_MAX`,
`ReadVMemDir` completes without reading outside the table (a read outside is
`none`).  When it returns `true` the resulting index lies in `[0, n_templates)`, the
output record is the table entry at that index and this entry passes the
Availability Filter; when it returns `false` the resulting index is at least
`n_templates`. -/
theorem ReadVMemDir_in_bounds (p : Platform) (vfile : VirtualFile) (vdir : VirtualDir)
    (hi : -1 ≤ vdir.index) (hmax : vdir.index < INT_MAX) :
    ∃ r, ReadVMemDir p vfile vdir = some r ∧
      (r.1 = true → 0 ≤ r.2.2.index ∧ r.2.2.index < ((vMemFileTemplates p).length : Int) ∧
        (vMemFileTemplates p)[r.2.2.index.toNat]? = some r.2.1 ∧ isAvailable p r.2.1 = true) ∧
      (r.1 = false → ((vMemFileTemplates p).length : Int) ≤ r.2.2.index) := by
  obtain ⟨r, hr⟩ := readVMemDirLoop_total p (vMemFileTemplates p)
    (by rw [catalog_length_int]; decide) _ vfile vdir.index hi hmax le_rfl
  have hres := readVMemDirLoop_result p (vMemFileTemplates p) _ vfile vdir.index r
    (by unfold INT_MIN; omega) (le_of_lt hmax) hr
  refine ⟨r, hr, fun ht => ?_, hres.2.2.1⟩
  obtain ⟨h1, h2, h3, h4⟩ := hres.2.2.2 ht
  refine ⟨h1, h2, h3, ?_⟩
  rw [isAvailable_eq, h4]
  rfl

/-- C15, witness: an old locked console, the cursor on `arm9.mem` (index 1): the call
skips `arm9ext.mem` and hands out entry 3, `boot9.bin`. -/
theorem ReadVMemDir_in_bounds_witness :
    (-1 : Int) ≤ (⟨1⟩ : VirtualDir).index ∧ (⟨1⟩ : VirtualDir).index < INT_MAX ∧
    (ReadVMemDir oldLockedPlatform itcmFile ⟨1⟩).map (fun r => (r.1, r.2.1.name, r.2.2.index))
      = some (true, "boot9.bin", 3) ∧
    ∃ r, ReadVMemDir oldLockedPlatform itcmFile ⟨1⟩ = some r ∧
      (r.1 = true → 0 ≤ r.2.2.index ∧
        r.2.2.index < ((vMemFileTemplates oldLockedPlatform).length : Int) ∧
        (vMemFileTemplates oldLockedPlatform)[r.2.2.index.toNat]? = some r.2.1 ∧
        isAvailable oldLockedPlatform r.2.1 = true) ∧
      (r.1 = false → ((vMemFileTemplates oldLockedPlatform).length : Int) ≤ r.2.2.index) :=
  ⟨by decide, by decide, by decide,
   ReadVMemDir_in_bounds oldLockedPlatform itcmFile ⟨1⟩ (by decide) (by decide)⟩

/-- C15, counterexample: the cursor index `INT_MAX` is at least -1, yet the call
increments it to `INT_MIN`, which passes the loop test `< n_templates` and lies
outside `[0, n_templates)`: the table is read outside its bounds (`none`), and no
`false` return with an index of at least `n_templates` takes place. -/
theorem ReadVMemDir_in_bounds_overflow_counterexample :
    (-1 : Int) ≤ (⟨INT_MAX⟩ : VirtualDir).index ∧
    wrapInt ((⟨INT_MAX⟩ : VirtualDir).index + 1) <
      ((vMemFileTemplates testPlatform).length : Int) ∧
    wrapInt ((⟨INT_MAX⟩ : VirtualDir).index + 1) < 0 ∧
    ReadVMemDir testPlatform itcmFile ⟨INT_MAX⟩ = none := by
  refine ⟨by decide, by decide, by decide, by decide⟩

/-- C16: for a direct catalog entry (the type `Otp` being 0x100 bytes) the region
ends below 2^32; so for `offset + count <= size` the 32-bit address `foffset` is
`offset field + offset` itself and the `memcpy` length is `count` itself, the copied
range `[foffset, foffset + count)` lies inside the region, and `ReadVMemFile` (and
`WriteVMemFile`, when the entry is writable) copy at exactly that address. -/
theorem catalog_direct_address_exact (p : Platform) (hp : p.sizeof_Otp = 0x100)
    (w : World) (vfile : VirtualFile) (buffer : Buffer) (offset count : Nat)
    (hv : vfile ∈ vMemFileTemplates p) (hd : vfile.flags &&& VFLAG_CALLBACK = 0)
    (hr : offset + count ≤ vfile.size) :
    vfile.offset + vfile.size ≤ 2 ^ 32 ∧
    (vfile.offset + offset) % 2 ^ 32 = vfile.offset + offset ∧
    size_t count = count ∧
    vfile.offset ≤ (vfile.offset + offset) % 2 ^ 32 ∧
    (vfile.offset + offset) % 2 ^ 32 + size_t count ≤ vfile.offset + vfile.size ∧
    ReadVMemFile p w vfile buffer offset count =
      some ⟨0, memcpyFromMem buffer w.mem (vfile.offset + offset) count, w⟩ ∧
    (vfile.flags &&& VFLAG_READ_ONLY = 0 →
      WriteVMemFile p w vfile buffer offset count =
        some ⟨0, buffer, ⟨memcpyToMem w.mem (vfile.offset + offset) buffer count,
          w.aes, w.trace⟩⟩) := by
  have hlt := catalog_direct_below p hp vfile hv hd
  have hf : (vfile.offset + offset) % 2 ^ 32 = vfile.offset + offset :=
    Nat.mod_eq_of_lt (by omega)
  have hc : size_t count = count := Nat.mod_eq_of_lt (by omega)
  refine ⟨by omega, hf, hc, by omega, by omega, ?_, fun hro => ?_⟩
  · simp only [ReadVMemFile, hd, bne_self_eq_false, Bool.false_eq_true, if_false, hf]
  · simp only [WriteVMemFile, hro, hd, bne_self_eq_false, Bool.false_eq_true, if_false, hf]

/-- C16, witness: the last 0x10 bytes of `itcm.mem`. -/
theorem catalog_direct_address_exact_witness :
    itcmFile ∈ vMemFileTemplates testPlatform ∧ 0x7FF0 + 0x10 ≤ itcmFile.size ∧
    (itcmFile.offset + 0x7FF0) % 2 ^ 32 = itcmFile.offset + 0x7FF0 ∧
    ReadVMemFile testPlatform testWorld itcmFile zeroBuffer 0x7FF0 0x10 =
      some ⟨0, memcpyFromMem zeroBuffer testWorld.mem (itcmFile.offset + 0x7FF0) 0x10,
        testWorld⟩ :=
  ⟨by simp [vMemFileTemplates, itcmFile], by decide,
   (catalog_direct_address_exact testPlatform rfl testWorld itcmFile zeroBuffer 0x7FF0 0x10
      (by simp [vMemFileTemplates, itcmFile]) (by decide) (by decide)).2.1,
   (catalog_direct_address_exact testPlatform rfl testWorld itcmFile zeroBuffer 0x7FF0 0x10
      (by simp [vMemFileTemplates, itcmFile]) (by decide) (by decide)).2.2.2.2.2.1⟩

/-- C17: every catalog entry with `VFLAG_CALLBACK` also has `VFLAG_READ_ONLY`; so a
write to any catalog entry completes without a handler call (the trace, where
handler calls are logged, and the cipher engine are as before), and it changes
memory only if the entry is direct and has no `VFLAG_READ_ONLY`. -/
theorem catalog_callbacks_read_only (p : Platform) (vfile : VirtualFile)
    (hv : vfile ∈ vMemFileTemplates p) :
    (vfile.flags &&& VFLAG_CALLBACK ≠ 0 → vfile.flags &&& VFLAG_READ_ONLY ≠ 0) ∧
    ∀ (w : World) (buffer : Buffer) (offset count : Nat),
      ∃ out, WriteVMemFile p w vfile buffer offset count = some out ∧
        out.world.trace = w.trace ∧ out.world.aes = w.aes ∧ out.buffer = buffer ∧
        (out.world.mem ≠ w.mem →
          vfile.flags &&& VFLAG_CALLBACK = 0 ∧ vfile.flags &&& VFLAG_READ_ONLY = 0) := by
  have hshape := catalog_entry_flags p vfile hv
  constructor
  · intro hcb
    rcases hshape with hd | ⟨_, hro, _⟩
    · exact absurd hd hcb
    · exact hro
  · intro w buffer offset count
    by_cases hro : vfile.flags &&& VFLAG_READ_ONLY = 0
    · rcases hshape with hd | ⟨_, hro2, _⟩
      · exact ⟨⟨0, buffer, ⟨memcpyToMem w.mem ((vfile.offset + offset) % 2 ^ 32) buffer count,
            w.aes, w.trace⟩⟩,
          by simp only [WriteVMemFile, hro, hd, bne_self_eq_false, Bool.false_eq_true,
            if_false],
          rfl, rfl, rfl, fun _ => ⟨hd, hro⟩⟩
      · exact absurd hro hro2
    · exact ⟨⟨1, buffer, w⟩, WriteVMemFile_read_only_aux p w vfile buffer offset count hro,
        rfl, rfl, rfl, fun h => absurd rfl h⟩

/-- C17, witness: the callback entry `otp_dec.mem` is read-only. -/
theorem catalog_callbacks_read_only_witness :
    otpDecFile ∈ vMemFileTemplates testPlatform ∧ otpDecFile.flags &&& VFLAG_CALLBACK ≠ 0 ∧
    otpDecFile.flags &&& VFLAG_READ_ONLY ≠ 0 :=
  ⟨by simp [vMemFileTemplates, otpDecFile], by decide,
   (catalog_callbacks_read_only testPlatform otpDecFile
      (by simp [vMemFileTemplates, otpDecFile])).1 (by decide)⟩

/-! ## The serial number in `GetSysInfo_SecureInfo` -/

theorem cString_nil : cString [] = [] := rfl

theorem cString_cons_zero (t : List Nat) : cString (0 :: t) = [] := by
  simp [cString]

theorem cString_cons_ne (c : Nat) (t : List Nat) (h : c ≠ 0) :
    cString (c :: t) = c :: cString t := by
  simp [cString, h]

/-- The C string of an array is `l` when `l` has no NUL, the array starts with `l` and
has a NUL right after it. -/
theorem cString_eq_of_getElem (l : List Nat) :
    ∀ (a : List Nat), (∀ c ∈ l, c ≠ 0) → (∀ i, i < l.length → a[i]? = l[i]?) →
      a[l.length]? = some 0 → cString a = l := by
  induction l with
  | nil =>
    intro a _ _ hend
    cases a with
    | nil => rfl
    | cons c t =>
      simp only [List.length_nil, List.getElem?_cons_zero, Option.some.injEq] at hend
      rw [hend, cString_cons_zero]
  | cons v vs ih =>
    intro a hnz hpre hend
    cases a with
    | nil => simp at hend
    | cons c t =>
      have h0 := hpre 0 (by simp)
      simp only [List.getElem?_cons_zero, Option.some.injEq] at h0
      subst h0
      rw [cString_cons_ne c t (hnz c (by simp))]
      congr 1
      apply ih t (fun x hx => hnz x (List.mem_cons_of_mem _ hx))
      · intro i hi
        have := hpre (i + 1) (by simp; omega)
        simpa using this
      · simpa using hend

theorem cString_no_zero (a : List Nat) : ∀ c ∈ cString a, c ≠ 0 := by
  intro c hc
  have := List.mem_takeWhile_imp hc
  simpa using this

theorem cString_length_le (a : List Nat) : (cString a).length ≤ a.length :=
  (List.takeWhile_sublist _).length_le

theorem strncpy_length (dst src : List Nat) (n : Nat) (h : n ≤ dst.length) :
    (strncpy dst src n).length = dst.length := by
  simp only [strncpy, List.length_append, List.length_take, List.length_replicate,
    List.length_drop]
  omega

theorem strncpy_length_ge (dst src : List Nat) (n : Nat) : n ≤ (strncpy dst src n).length := by
  simp only [strncpy, List.length_append, List.length_take, List.length_replicate,
    List.length_drop]
  omega

/-- Below the length of the text, `strncpy` delivers the text. -/
theorem strncpy_getElem_text (dst src : List Nat) (n i : Nat) (hi : i < (cString src).length)
    (hn : i < n) : (strncpy dst src n)[i]? = (cString src)[i]? := by
  unfold strncpy
  simp only
  rw [List.append_assoc, List.getElem?_append_left (by simp; omega),
    List.getElem?_take_of_lt hn]

/-- Between the length of the text and `n`, `strncpy` delivers NULs. -/
theorem strncpy_getElem_pad (dst src : List Nat) (n i : Nat) (hi : (cString src).length ≤ i)
    (hn : i < n) : (strncpy dst src n)[i]? = some 0 := by
  unfold strncpy
  simp only
  rw [List.append_assoc, List.getElem?_append_right (by simp; omega),
    List.getElem?_append_left (by simp; omega), List.getElem?_replicate_of_lt (by simp; omega)]

/-- The array after "copy the serial out": it has the length of `info->serial`, holds
the raw serial and a NUL right after it. -/
theorem copied_serial (serial data : List Nat) (hs : 16 ≤ serial.length)
    (hd : data.length = 15) :
    ((strncpy serial data 15).set 15 0).length = serial.length ∧
    (∀ i, i < (cString data).length →
      ((strncpy serial data 15).set 15 0)[i]? = (cString data)[i]?) ∧
    ((strncpy serial data 15).set 15 0)[(cString data).length]? = some 0 := by
  have hraw : (cString data).length ≤ 15 := hd ▸ cString_length_le data
  have hlen : (strncpy serial data 15).length = serial.length :=
    strncpy_length serial data 15 (by omega)
  refine ⟨by rw [List.length_set, hlen], ?_, ?_⟩
  · intro i hi
    rw [List.getElem?_set_ne (by omega), strncpy_getElem_text _ _ _ _ hi (by omega)]
  · by_cases h15 : (cString data).length = 15
    · rw [h15, List.getElem?_set_self (by omega)]
    · rw [List.getElem?_set_ne (by omega), strncpy_getElem_pad _ _ _ _ le_rfl (by omega)]

theorem strlen_copied_serial (serial data : List Nat) (hs : 16 ≤ serial.length)
    (hd : data.length = 15) :
    strlen ((strncpy serial data 15).set 15 0) = (cString data).length := by
  obtain ⟨_, h2, h3⟩ := copied_serial serial data hs hd
  unfold strlen
  rw [cString_eq_of_getElem (cString data) _ (cString_no_zero data) h2 h3]

/-- The check digit is a decimal digit that completes the weighted sum to a multiple
of 10. -/
theorem checkDigit_spec (odds evens : Nat) :
    48 ≤ checkDigit odds evens ∧ checkDigit odds evens ≤ 57 ∧
    (odds + 3 * evens + (checkDigit odds evens - 48)) % 10 = 0 := by
  unfold checkDigit
  simp only
  split_ifs with h <;> omega

/-- The final contents of `info->serial`, as a C string: the raw serial, followed by
the check digit when the raw serial is shorter than 15 and 8 digits were counted. -/
theorem finishSerial_cString (serial data : List Nat) (s : SerialScan)
    (hs : 16 ≤ serial.length) (hd : data.length = 15) :
    cString (finishSerial serial data s) =
      if (cString data).length < 15 ∧ s.digits = 8 then
        cString data ++ [checkDigit s.odds s.evens]
      else cString data := by
  obtain ⟨h1, h2, h3⟩ := copied_serial serial data hs hd
  unfold finishSerial
  simp only
  rw [strlen_copied_serial serial data hs hd]
  by_cases hc : (cString data).length < 15 ∧ s.digits = 8
  · rw [if_pos hc, if_pos (by omega)]
    apply cString_eq_of_getElem
    · intro c hc2
      rcases List.mem_append.mp hc2 with h | h
      · exact cString_no_zero data c h
      · have := (checkDigit_spec s.odds s.evens).1
        simp only [List.mem_singleton] at h
        omega
    · intro i hi
      simp only [List.length_append, List.length_singleton] at hi
      rw [List.getElem?_set_ne (by omega)]
      by_cases hlast : i = (cString data).length
      · rw [hlast, List.getElem?_set_self (by omega),
          List.getElem?_append_right le_rfl]
        simp
      · rw [List.getElem?_set_ne (by omega), h2 i (by omega),
          List.getElem?_append_left (by omega)]
    · simp only [List.length_append, List.length_singleton]
      rw [List.getElem?_set_self (by rw [List.length_set, h1]; omega)]
  · rw [if_neg hc, if_neg (by omega)]
    exact cString_eq_of_getElem (cString data) _ (cString_no_zero data) h2 h3

theorem alternateSum_add_two (vs : List Nat) : ∀ k, alternateSum (k + 2) vs = alternateSum k vs := by
  induction vs with
  | nil => intro k; rfl
  | cons v vs ih =>
    intro k
    simp only [alternateSum]
    rw [show k + 2 + 1 = (k + 1) + 2 from rfl, ih (k + 1)]
    congr 1
    have : (k + 2) % 2 = k % 2 := by omega
    rw [this]

theorem digitValues_cons_digit (c : Nat) (t : List Nat) (h : 48 ≤ c ∧ c ≤ 57) :
    digitValues (c :: t) = (c - 48) :: digitValues t := by
  simp [digitValues, h]

theorem digitValues_cons_other (c : Nat) (t : List Nat) (h : ¬ (48 ≤ c ∧ c ≤ 57)) :
    digitValues (c :: t) = digitValues t := by
  simp only [digitValues]
  rw [List.filter_cons_of_neg (by simpa using h)]

/-- The serial loop over a printable raw serial: `got_serial` stays as it was, and
the loop counts the digits and adds them up by position. -/
theorem scanSerialLoop_printable (data : List Nat) :
    ∀ (remaining x : Nat) (s : SerialScan), x + remaining = data.length →
      (∀ c ∈ cString (data.drop x), 32 ≤ c ∧ c ≤ 126) →
      (scanSerialLoop data remaining x s).got_serial = s.got_serial ∧
      (scanSerialLoop data remaining x s).digits =
        s.digits + (digitValues (cString (data.drop x))).length ∧
      (scanSerialLoop data remaining x s).odds =
        s.odds + alternateSum s.digits (digitValues (cString (data.drop x))) ∧
      (scanSerialLoop data remaining x s).evens =
        s.evens + alternateSum (s.digits + 1) (digitValues (cString (data.drop x))) ∧
      (scanSerialLoop data remaining x s).serial.length = s.serial.length := by
  intro remaining
  induction remaining with
  | zero =>
    intro x s hx _
    rw [List.drop_eq_nil_iff.mpr (by omega)]
    simp [scanSerialLoop, cString_nil, digitValues, alternateSum]
  | succ n ih =>
    intro x s hx hp
    have hlt : x < data.length := by omega
    have hget : data.getD x 0 = data[x] := List.getD_eq_getElem _ _ hlt
    rw [List.drop_eq_getElem_cons hlt] at hp ⊢
    rw [scanSerialLoop]
    simp only [hget]
    generalize data[x] = ch at *
    by_cases h0 : ch = 0
    · subst h0
      simp [cString_cons_zero, digitValues, alternateSum]
    · rw [cString_cons_ne _ _ h0] at hp ⊢
      have hpc := hp ch (List.mem_cons_self _ _)
      have hp2 : ∀ c ∈ cString (data.drop (x + 1)), 32 ≤ c ∧ c ≤ 126 :=
        fun c hc => hp c (List.mem_cons_of_mem _ hc)
      rw [if_neg h0, if_neg (by omega)]
      obtain ⟨i1, i2, i3, i4, i5⟩ := ih (x + 1)
        (countSerialChar { s with serial := s.serial.set x ch } ch) (by omega) hp2
      rw [i1, i2, i3, i4, i5]
      unfold countSerialChar
      by_cases hdig : 48 ≤ ch ∧ ch ≤ 57
      · rw [if_pos hdig, digitValues_cons_digit _ _ hdig]
        simp only [alternateSum, List.length_cons]
        split_ifs <;> simp [alternateSum_add_two] <;> omega
      · rw [if_neg hdig, digitValues_cons_other _ _ hdig]
        dsimp only
        split_ifs <;> simp

/-- The state of the serial loop when `GetSysInfo_SecureInfo` has read `data`. -/
theorem GetSysInfo_SecureInfo_serial (p : Platform) (e : SysEnv) (info : SysInfo)
    (nand_drive : Char) (data : SecureInfo) (hread : readSecureInfo e nand_drive = some data) :
    (GetSysInfo_SecureInfo p e info nand_drive).serial =
      if (scanSerialLoop data.serial 15 0
          ⟨strncpy info.serial (chars "<unknown>") 16, true, 0, 0, 0, 0, 0, 0, 0⟩).got_serial
          = true then
        finishSerial
          (scanSerialLoop data.serial 15 0
            ⟨strncpy info.serial (chars "<unknown>") 16, true, 0, 0, 0, 0, 0, 0, 0⟩).serial
          data.serial
          (scanSerialLoop data.serial 15 0
            ⟨strncpy info.serial (chars "<unknown>") 16, true, 0, 0, 0, 0, 0, 0, 0⟩)
      else
        (scanSerialLoop data.serial 15 0
          ⟨strncpy info.serial (chars "<unknown>") 16, true, 0, 0, 0, 0, 0, 0, 0⟩).serial := by
  unfold GetSysInfo_SecureInfo
  simp only [hread]
  split_ifs <;> (try split) <;> first | rfl | simp_all

theorem alternateSum_eight (ds : List Nat) (h : ds.length = 8) :
    alternateSum 0 ds = ds.getD 0 0 + ds.getD 2 0 + ds.getD 4 0 + ds.getD 6 0 ∧
    alternateSum 1 ds = ds.getD 1 0 + ds.getD 3 0 + ds.getD 5 0 + ds.getD 7 0 := by
  match ds, h with
  | [a, b, c, d, e, f, g, i], _ => simp [alternateSum, Nat.add_assoc]

/-- C18: let the file deliver a record whose raw serial (the C string in the 15
characters of `data.serial`) is printable.  If the raw serial is shorter than 15
characters and has exactly 8 decimal digits, the reported serial is the raw serial
followed by one character `d` in `'0'..'9'` with
`(odds + 3 * evens + (d - '0')) mod 10 = 0`, `odds` being the sum of the 1st, 3rd, 5th
and 7th digit and `evens` the sum of the 2nd, 4th, 6th and 8th.  If it does not have
exactly 8 digits, or is 15 characters long, the reported serial is the raw serial with
nothing appended. -/
theorem GetSysInfo_SecureInfo_check_digit (p : Platform) (e : SysEnv) (info : SysInfo)
    (nand_drive : Char) (data : SecureInfo)
    (hread : readSecureInfo e nand_drive = some data)
    (hlen : data.serial.length = 15)
    (hprint : ∀ c ∈ rawSerial data, 32 ≤ c ∧ c ≤ 126) :
    ((rawSerial data).length < 15 → (digitValues (rawSerial data)).length = 8 →
      ∃ d, 48 ≤ d ∧ d ≤ 57 ∧
        cString (GetSysInfo_SecureInfo p e info nand_drive).serial = rawSerial data ++ [d] ∧
        (((digitValues (rawSerial data)).getD 0 0 + (digitValues (rawSerial data)).getD 2 0 +
            (digitValues (rawSerial data)).getD 4 0 + (digitValues (rawSerial data)).getD 6 0) +
          3 * ((digitValues (rawSerial data)).getD 1 0 + (digitValues (rawSerial data)).getD 3 0 +
            (digitValues (rawSerial data)).getD 5 0 + (digitValues (rawSerial data)).getD 7 0) +
          (d - 48)) % 10 = 0) ∧
    ((digitValues (rawSerial data)).length ≠ 8 ∨ (rawSerial data).length = 15 →
      cString (GetSysInfo_SecureInfo p e info nand_drive).serial = rawSerial data) := by
  unfold rawSerial at hprint ⊢
  have hscan := scanSerialLoop_printable data.serial 15 0
    ⟨strncpy info.serial (chars "<unknown>") 16, true, 0, 0, 0, 0, 0, 0, 0⟩ (by omega)
    (by rw [List.drop_zero]; exact hprint)
  rw [List.drop_zero] at hscan
  obtain ⟨hgot, hdigits, hodds, hevens, hslen⟩ := hscan
  simp only [Nat.zero_add] at hdigits hodds hevens
  have hs16 : 16 ≤ (scanSerialLoop data.serial 15 0
      ⟨strncpy info.serial (chars "<unknown>") 16, true, 0, 0, 0, 0, 0, 0, 0⟩).serial.length := by
    rw [hslen]
    exact strncpy_length_ge _ _ 16
  rw [GetSysInfo_SecureInfo_serial p e info nand_drive data hread, if_pos hgot,
    finishSerial_cString _ _ _ hs16 hlen, hdigits]
  constructor
  · intro hshort h8
    have hsum := alternateSum_eight _ h8
    have hcd := checkDigit_spec
      (scanSerialLoop data.serial 15 0
        ⟨strncpy info.serial (chars "<unknown>") 16, true, 0, 0, 0, 0, 0, 0, 0⟩).odds
      (scanSerialLoop data.serial 15 0
        ⟨strncpy info.serial (chars "<unknown>") 16, true, 0, 0, 0, 0, 0, 0, 0⟩).evens
    refine ⟨_, hcd.1, hcd.2.1, ?_, ?_⟩
    · rw [if_pos ⟨hshort, h8⟩]
    · have h := hcd.2.2
      rw [← hsum.1, ← hsum.2, ← hodds, ← hevens]
      exact h
  · intro hno
    rw [if_neg (by
      intro hc
      rcases hno with h | h
      · exact h hc.2
      · omega)]

/-- C18, witness: the raw serial "CW12345678" (odds 16, evens 20) is reported as
"CW123456784". -/
theorem GetSysInfo_SecureInfo_check_digit_witness :
    (digitValues (rawSerial (secureInfoData (chars "CW12345678")))).length = 8 ∧
    cString (GetSysInfo_SecureInfo testPlatform (secureInfoWith (chars "CW12345678")) blankInfo
      (Char.ofNat 49)).serial = chars "CW123456784" ∧
    ∃ d, 48 ≤ d ∧ d ≤ 57 ∧
      cString (GetSysInfo_SecureInfo testPlatform (secureInfoWith (chars "CW12345678")) blankInfo
        (Char.ofNat 49)).serial = rawSerial (secureInfoData (chars "CW12345678")) ++ [d] ∧
      (((digitValues (rawSerial (secureInfoData (chars "CW12345678")))).getD 0 0 +
          (digitValues (rawSerial (secureInfoData (chars "CW12345678")))).getD 2 0 +
          (digitValues (rawSerial (secureInfoData (chars "CW12345678")))).getD 4 0 +
          (digitValues (rawSerial (secureInfoData (chars "CW12345678")))).getD 6 0) +
        3 * ((digitValues (rawSerial (secureInfoData (chars "CW12345678")))).getD 1 0 +
          (digitValues (rawSerial (secureInfoData (chars "CW12345678")))).getD 3 0 +
          (digitValues (rawSerial (secureInfoData (chars "CW12345678")))).getD 5 0 +
          (digitValues (rawSerial (secureInfoData (chars "CW12345678")))).getD 7 0) +
        (d - 48)) % 10 = 0 :=
  ⟨by decide, by decide,
   (GetSysInfo_SecureInfo_check_digit testPlatform (secureInfoWith (chars "CW12345678"))
      blankInfo (Char.ofNat 49) (secureInfoData (chars "CW12345678")) (by decide) (by decide)
      (by decide)).1 (by decide) (by decide)⟩

/-! ## A serial with a character that is not printable -/

theorem countSerialChar_serial (s : SerialScan) (ch : Nat) :
    (countSerialChar s ch).serial = s.serial := by
  unfold countSerialChar
  dsimp only
  split_ifs <;> rfl

/-- The serial loop on a raw serial whose character `k` is the first one outside
`' '..'~'` (and not NUL): the loop ends with `got_serial = false`, having copied the
characters up to and including character `k` into `info->serial`. -/
theorem scanSerialLoop_bad (data : List Nat) :
    ∀ (remaining x : Nat) (s : SerialScan) (k : Nat), x + remaining = data.length →
      x ≤ k → k < data.length → k < s.serial.length →
      (∀ j, x ≤ j → j < k → 32 ≤ data.getD j 0 ∧ data.getD j 0 ≤ 126) →
      data.getD k 0 ≠ 0 → (data.getD k 0 < 32 ∨ 126 < data.getD k 0) →
      (scanSerialLoop data remaining x s).got_serial = false ∧
      (∀ j, x ≤ j → j ≤ k → (scanSerialLoop data remaining x s).serial[j]? =
        some (data.getD j 0)) ∧
      (∀ j, j < x → (scanSerialLoop data remaining x s).serial[j]? = s.serial[j]?) := by
  intro remaining
  induction remaining with
  | zero =>
    intro x s k hx hxk hk _ _ _ _
    omega
  | succ n ih =>
    intro x s k hx hxk hk hks hpre hnz hbad
    rw [scanSerialLoop]
    simp only
    by_cases hxk2 : x = k
    · subst hxk2
      rw [if_neg hnz, if_pos (by omega)]
      refine ⟨rfl, ?_, ?_⟩
      · intro j h1 h2
        have : j = x := by omega
        subst this
        simp only
        rw [List.getElem?_set_self hks]
      · intro j hj
        simp only
        rw [List.getElem?_set_ne (by omega)]
    · have hch := hpre x le_rfl (by omega)
      rw [if_neg (by omega), if_neg (by omega)]
      obtain ⟨i1, i2, i3⟩ := ih (x + 1)
        (countSerialChar { s with serial := s.serial.set x (data.getD x 0) } (data.getD x 0))
        k (by omega) (by omega) hk
        (by rw [countSerialChar_serial]; simpa using hks)
        (fun j h1 h2 => hpre j (by omega) h2) hnz hbad
      refine ⟨i1, ?_, ?_⟩
      · intro j h1 h2
        by_cases hj : j = x
        · subst hj
          rw [i3 j (by omega), countSerialChar_serial]
          simp only
          rw [List.getElem?_set_self (by omega)]
        · exact i2 j (by omega) h2
      · intro j hj
        rw [i3 j (by omega), countSerialChar_serial]
        simp only
        rw [List.getElem?_set_ne (by omega)]

/-- The C string of an array reaches position `k` when the array has no NUL up to
`k`. -/
theorem cString_getElem_of_ne_zero :
    ∀ (a : List Nat) (k : Nat), (∀ j, j ≤ k → ∃ v, a[j]? = some v ∧ v ≠ 0) →
      (cString a)[k]? = a[k]? := by
  intro a
  induction a with
  | nil =>
    intro k h
    obtain ⟨v, hv, _⟩ := h 0 (by omega)
    simp at hv
  | cons c t ih =>
    intro k h
    obtain ⟨v, hv, hv0⟩ := h 0 (by omega)
    simp only [List.getElem?_cons_zero, Option.some.injEq] at hv
    subst hv
    rw [cString_cons_ne _ _ hv0]
    cases k with
    | zero => simp only [List.getElem?_cons_zero]
    | succ k =>
      simp only [List.getElem?_cons_succ]
      apply ih
      intro j hj
      have := h (j + 1) (by omega)
      simpa using this

theorem unknown_printable : ∀ c ∈ chars "<unknown>", 32 ≤ c ∧ c ≤ 126 := by decide

theorem cString_default (dst : List Nat) :
    cString (strncpy dst (chars "<unknown>") 16) = chars "<unknown>" := rfl

/-- What `GetSysInfo_SecureInfo` leaves behind when the serial loop ends with
`got_serial = false`: the array the loop wrote to, and the defaults of the sub-model
and the sales region. -/
theorem GetSysInfo_SecureInfo_no_serial (p : Platform) (e : SysEnv) (info : SysInfo)
    (nand_drive : Char) (data : SecureInfo) (hread : readSecureInfo e nand_drive = some data)
    (hgot : (scanSerialLoop data.serial 15 0
      ⟨strncpy info.serial (chars "<unknown>") 16, true, 0, 0, 0, 0, 0, 0, 0⟩).got_serial
      = false) :
    (GetSysInfo_SecureInfo p e info nand_drive).serial =
      (scanSerialLoop data.serial 15 0
        ⟨strncpy info.serial (chars "<unknown>") 16, true, 0, 0, 0, 0, 0, 0, 0⟩).serial ∧
    (GetSysInfo_SecureInfo p e info nand_drive).sub_model =
      strncpy info.sub_model (chars "<unknown>") 16 ∧
    (GetSysInfo_SecureInfo p e info nand_drive).sales_region =
      strncpy info.sales_region (chars "<unknown>") 16 := by
  unfold GetSysInfo_SecureInfo
  simp only [hread]
  split_ifs <;> (try split) <;> first | exact ⟨rfl, rfl, rfl⟩ | simp_all

/-- C19 (what the code does): let the file deliver a record whose serial has, at a
position `k` before any NUL, a character outside `' '..'~'`, the characters before it
being printable.  Then the sub-model and the sales region stay "<unknown>", but the
serial field does not: the loop has copied the characters 0 to `k` of the raw serial
over the default, so the reported serial is not "<unknown>". -/
theorem GetSysInfo_SecureInfo_unprintable_serial (p : Platform) (e : SysEnv) (info : SysInfo)
    (nand_drive : Char) (data : SecureInfo) (k : Nat)
    (hread : readSecureInfo e nand_drive = some data)
    (hlen : data.serial.length = 15) (hk : k < 15)
    (hpre : ∀ j, j < k → 32 ≤ data.serial.getD j 0 ∧ data.serial.getD j 0 ≤ 126)
    (hnz : data.serial.getD k 0 ≠ 0)
    (hbad : data.serial.getD k 0 < 32 ∨ 126 < data.serial.getD k 0) :
    cString (GetSysInfo_SecureInfo p e info nand_drive).sub_model = chars "<unknown>" ∧
    cString (GetSysInfo_SecureInfo p e info nand_drive).sales_region = chars "<unknown>" ∧
    (∀ j, j ≤ k → (GetSysInfo_SecureInfo p e info nand_drive).serial[j]? =
      some (data.serial.getD j 0)) ∧
    cString (GetSysInfo_SecureInfo p e info nand_drive).serial ≠ chars "<unknown>" := by
  obtain ⟨hgot, hcopy, _⟩ := scanSerialLoop_bad data.serial 15 0
    ⟨strncpy info.serial (chars "<unknown>") 16, true, 0, 0, 0, 0, 0, 0, 0⟩ k
    (by omega) (by omega) (by omega)
    (by
      have := strncpy_length_ge info.serial (chars "<unknown>") 16
      show k < (strncpy info.serial (chars "<unknown>") 16).length
      omega)
    (fun j _ h2 => hpre j h2) hnz hbad
  obtain ⟨h1, h2, h3⟩ := GetSysInfo_SecureInfo_no_serial p e info nand_drive data hread hgot
  have hser : ∀ j, j ≤ k → (GetSysInfo_SecureInfo p e info nand_drive).serial[j]? =
      some (data.serial.getD j 0) := by
    intro j hj
    rw [h1]
    exact hcopy j (by omega) hj
  refine ⟨by rw [h2, cString_default], by rw [h3, cString_default], hser, ?_⟩
  intro heq
  have hget := cString_getElem_of_ne_zero (GetSysInfo_SecureInfo p e info nand_drive).serial k
    (fun j hj => ⟨data.serial.getD j 0, hser j hj, by
      by_cases hjk : j = k
      · rw [hjk]
        exact hnz
      · have := hpre j (by omega)
        omega⟩)
  rw [heq, hser k le_rfl] at hget
  have hmem : data.serial.getD k 0 ∈ chars "<unknown>" := by
    obtain ⟨hlt, hval⟩ := List.getElem?_eq_some_iff.mp hget
    rw [← hval]
    exact List.getElem_mem hlt
  have := unknown_printable _ hmem
  omega

/-- C19, witness: the raw serial `C`, `W`, 0x01, `1`: the bad character at position 2.
The reported serial is `C`, `W`, 0x01 followed by the rest of the default,
"known>"; sub-model and sales region are "<unknown>". -/
theorem GetSysInfo_SecureInfo_unprintable_serial_witness :
    cString (GetSysInfo_SecureInfo testPlatform (secureInfoWith [67, 87, 1, 49]) blankInfo
      (Char.ofNat 49)).serial = [67, 87, 1] ++ chars "known>" ∧
    (cString (GetSysInfo_SecureInfo testPlatform (secureInfoWith [67, 87, 1, 49]) blankInfo
        (Char.ofNat 49)).sub_model = chars "<unknown>" ∧
      cString (GetSysInfo_SecureInfo testPlatform (secureInfoWith [67, 87, 1, 49]) blankInfo
        (Char.ofNat 49)).sales_region = chars "<unknown>" ∧
      (∀ j, j ≤ 2 →
        (GetSysInfo_SecureInfo testPlatform (secureInfoWith [67, 87, 1, 49]) blankInfo
          (Char.ofNat 49)).serial[j]? =
            some ((secureInfoData [67, 87, 1, 49]).serial.getD j 0)) ∧
      cString (GetSysInfo_SecureInfo testPlatform (secureInfoWith [67, 87, 1, 49]) blankInfo
        (Char.ofNat 49)).serial ≠ chars "<unknown>") :=
  ⟨by decide,
   GetSysInfo_SecureInfo_unprintable_serial testPlatform (secureInfoWith [67, 87, 1, 49])
     blankInfo (Char.ofNat 49) (secureInfoData [67, 87, 1, 49]) 2 (by decide) (by decide)
     (by decide) (by decide) (by decide) (by decide)⟩

end VMem
